import Mathlib

/-!
Verification of an Enigma machine simulator (a Rust port of Henry Tieman's
Enigma simulator).  The machine state and every operation on it are embedded
shallowly: `u8` arithmetic is modelled as `Nat` with explicit `% 256`
wrapping (release-mode semantics), fixed-size arrays as `List Nat` with
`getD`/`set`, and the fallible keyfile reader as a function into an explicit
result type distinguishing success, a usage exit, and an out-of-bounds panic.
-/

set_option maxRecDepth 100000

/-- Byte values of a string literal (the Rust `*b"..."` byte-string form). -/
def strBytes (s : String) : List Nat := s.toList.map Char.toNat

/-- Wrapping 8-bit addition. -/
def u8add (a b : Nat) : Nat := (a + b) % 256

/-- Wrapping 8-bit subtraction. -/
def u8sub (a b : Nat) : Nat := (a % 256 + 256 - b % 256) % 256

/-- Wrapping `usize` subtraction (64-bit). -/
def usizeSub (a b : Nat) : Nat := (a % 2 ^ 64 + 2 ^ 64 - b % 2 ^ 64) % 2 ^ 64

/-- Read a byte array cell (`arr[i]`), defaulting to 0 out of range. -/
def rget (l : List Nat) (i : Nat) : Nat := l.getD i 0

/-- Row `i` of the two-dimensional working array `data`. -/
def row (d : List (List Nat)) (i : Nat) : List Nat := d.getD i []

/-- Read `data[i][j]`. -/
def get2 (d : List (List Nat)) (i j : Nat) : Nat := rget (row d i) j

/-- Write `data[i][j] = v`. -/
def set2 (d : List (List Nat)) (i j v : Nat) : List (List Nat) :=
  d.set i ((row d i).set j v)

/-- `static REF_ROTOR: [u8; 26]` (reflector wiring, byte values). -/
def REF_ROTOR : List Nat := strBytes "YRUHQSLDPXNGOKMIEBFZCWVJAT"

/-- `const ROTOR: [[u8; 26]; 5]` (the five rotor wirings, byte values). -/
def ROTOR : List (List Nat) :=
  [ strBytes "EKMFLGDQVZNTOWYHXUSPAIBRCJ"
  , strBytes "AJDKSIRUXBLHWTMCQGZNPYFVOE"
  , strBytes "BDFHJLCPRTXVZNYEIWGAKMUSQO"
  , strBytes "ESOVPZJAYQUIRHXLNFTGKDCMWB"
  , strBytes "VZBRGITYUPSDNHLXAWMJQOFECK" ]

/-- `const step_data: [u8; 5]` — notch positions `q e v j z` minus `'a'`. -/
def step_data : List Nat := [113 - 97, 101 - 97, 118 - 97, 106 - 97, 122 - 97]

/-- The `Enigma` struct: rotor order, ring settings, plug data, rotor
positions, working tables, notch thresholds, double-step flag. -/
structure Enigma where
  order : List Nat
  ring : List Nat
  n_plugs : Nat
  plugs : List Nat
  pos : List Nat
  data : List (List Nat)
  step : List Nat
  dstep : Bool
deriving Repr, DecidableEq

/-- The `Enigma` literal constructed at the top of `main`
(default configuration, ring bytes `"\0AAA\0\0\0\0"`). -/
def mainEnigma : Enigma :=
  { order := [0, 1, 2]
  , ring := [0, 65, 65, 65, 0, 0, 0, 0]
  , n_plugs := 0
  , plugs := List.replicate 13 0
  , pos := [0, 0, 0]
  , data := List.replicate 8 (List.replicate 26 0)
  , step := [0, 0, 0]
  , dstep := false }

/-- `fn is_alpha(c: u8) -> bool`. -/
def is_alpha (c : Nat) : Bool :=
  decide ((65 ≤ c ∧ c ≤ 90) ∨ (97 ≤ c ∧ c ≤ 122))

/-- `fn toupper(c: u8) -> u8`. -/
def toupper (c : Nat) : Nat :=
  if 97 ≤ c ∧ c ≤ 122 then c - 32 else c

/-- `init`, reflector part: `data[4][j] = (REF_ROTOR[j] + 26 - b'A') % 26`. -/
def reflPhase (d : List (List Nat)) : List (List Nat) :=
  (List.range 26).foldl (fun d j => set2 d 4 j ((rget REF_ROTOR j + 26 - 65) % 26)) d

/-- `init`, one moving-rotor slot `i` (1, 2 or 3) wired from rotor `k`:
writes the absolute forward table into row `i` and its inverse into row
`8 - i` (`data[8-i][data[i][j]] = j`). -/
def rotorSlot (k i : Nat) (d : List (List Nat)) : List (List Nat) :=
  (List.range 26).foldl
    (fun d j =>
      set2 (set2 d i j ((rget (row ROTOR k) j + 26 - 65) % 26)) (8 - i)
        (get2 (set2 d i j ((rget (row ROTOR k) j + 26 - 65) % 26)) i j) j)
    d

/-- `init`, rotor loop `for i in 1..4` (unrolled over its constant bounds):
sets `step[i-1] = step_data[order[i-1]]` and the six rotor rows from the
configured order. -/
def rotorPhase (order step : List Nat) (d : List (List Nat)) :
    List Nat × List (List Nat) :=
  (((step.set 0 (rget step_data (rget order 0))).set 1
        (rget step_data (rget order 1))).set 2 (rget step_data (rget order 2)),
    rotorSlot (rget order 2) 3 (rotorSlot (rget order 1) 2 (rotorSlot (rget order 0) 1 d)))

/-- `init`, ring-setting shift of row `i` by displacement `ds`: copies the
row into the scratch row 0, then `data[i][j] = data[0][(52 - ds + j) % 26]`. -/
def ringShift (i ds : Nat) (d : List (List Nat)) : List (List Nat) :=
  let d := (List.range 26).foldl (fun d j => set2 d 0 j (get2 d i j)) d
  (List.range 26).foldl
    (fun d j => set2 d i j (get2 d 0 (u8add (u8sub 52 ds) j % 26))) d

/-- One iteration of the ring loop: `ds = ring[i] - b'A'`, shift row `i`
when `ds != 0`. -/
def ringStep (ring : List Nat) (i : Nat) (d : List (List Nat)) : List (List Nat) :=
  let ds := u8sub (rget ring i) 65
  if ds ≠ 0 then ringShift i ds d else d

/-- `init`, ring loop `for i in 1..8` skipping `i = 4` (unrolled over its
constant bounds). -/
def ringPhase (ring : List Nat) (d : List (List Nat)) : List (List Nat) :=
  ringStep ring 7 (ringStep ring 6 (ringStep ring 5 (ringStep ring 3
    (ringStep ring 2 (ringStep ring 1 d)))))

/-- `init`, plug part: identity fill `data[0][i] = i`. -/
def plugIdent (d : List (List Nat)) : List (List Nat) :=
  (List.range 26).foldl (fun d i => set2 d 0 i i) d

/-- The `while !is_alpha(plugs[j])` skip loop (fuel-bounded; the loop always
terminates within the fuel because bytes past the array read as 0). -/
def skipNonAlpha (plugs : List Nat) : Nat → Nat → Nat
  | j, 0 => j
  | j, fuel + 1 =>
    if is_alpha (rget plugs j) then j
    else
      let j' := j + 1
      if rget plugs j' = 0 then j' else skipNonAlpha plugs j' fuel

/-- `init`, plug pair loop: for each of `n_plugs` pairs, reads two letters
and writes the swap `data[0][u] = v; data[0][v] = u`. -/
def plugLoop (plugs : List Nat) : Nat → Nat → List (List Nat) → List (List Nat)
  | 0, _, d => d
  | n + 1, j, d =>
    let j := skipNonAlpha plugs j 15
    let u := u8sub (toupper (rget plugs j)) 65
    let v := u8sub (toupper (rget plugs (j + 1))) 65
    plugLoop plugs n (j + 2) (set2 (set2 d 0 u v) 0 v u)

/-- `init`, plug part (`if self.n_plugs != 0`). -/
def plugPhase (n_plugs : Nat) (plugs : List Nat) (d : List (List Nat)) :
    List (List Nat) :=
  if n_plugs ≠ 0 then plugLoop plugs n_plugs 0 (plugIdent d) else d

/-- Conversion of one row to displacement form:
`data[i][j] = (26 + data[i][j] - j) % 26` for all `j`. -/
def rowConv (i : Nat) (d : List (List Nat)) : List (List Nat) :=
  (List.range 26).foldl
    (fun d j => set2 d i j (u8sub (u8add 26 (get2 d i j)) j % 26)) d

/-- `init`, final conversion of rows 1–7 except 4 to displacement form
(the loop `for i in 1..8 { if i != 4 { ... } }`, unrolled over its constant
bounds). -/
def dispPhase (d : List (List Nat)) : List (List Nat) :=
  rowConv 7 (rowConv 6 (rowConv 5 (rowConv 3 (rowConv 2 (rowConv 1 d)))))

/-- `fn init(&mut self)`. -/
def init (e : Enigma) : Enigma :=
  let d := reflPhase e.data
  let sd := rotorPhase e.order e.step d
  let ring := ((e.ring.set 7 (rget e.ring 1)).set 6 (rget e.ring 2)).set 5 (rget e.ring 3)
  let d := ringPhase ring sd.2
  let d := plugPhase e.n_plugs e.plugs d
  let d := dispPhase d
  { e with data := d, step := sd.1, ring := ring }

/-- `fn advance_rotors(&mut self)`. -/
def advance_rotors (e : Enigma) : Enigma :=
  let pos := e.pos.set 0 (u8add (rget e.pos 0) 1 % 26)
  let pos :=
    if rget pos 0 = rget e.step 0 then pos.set 1 (u8add (rget pos 1) 1 % 26) else pos
  let pos := pos.set 1 (u8add (rget pos 1) 1 % 26)
  let pd :=
    if e.dstep then
      (((pos.set 1 (u8add (rget pos 1) 1 % 26)).set 2 (u8add (rget pos 2) 1 % 26)), false)
    else (pos, e.dstep)
  let dstep := if rget pd.1 1 = rget e.step 1 then true else pd.2
  { e with pos := pd.1, dstep := dstep }

/-- The plugboard substitution step of `encipher`
(`if self.n_plugs != 0 { c = self.data[0][c as usize]; }`). -/
def plugAp (e : Enigma) (c : Nat) : Nat :=
  if e.n_plugs ≠ 0 then get2 e.data 0 c else c

/-- One forward rotor pass of `encipher`
(`idx = (c + pos[j]) % 26; c = (c + data[j+1][idx]) % 26`). -/
def rotorF (e : Enigma) (j c : Nat) : Nat :=
  u8add c (get2 e.data (j + 1) (u8add c (rget e.pos j) % 26)) % 26

/-- One backward rotor pass of `encipher`
(`idx = (c + pos[2-j]) % 26; c = (c + data[j+5][idx]) % 26`). -/
def rotorB (e : Enigma) (j c : Nat) : Nat :=
  u8add c (get2 e.data (j + 5) (u8add c (rget e.pos (2 - j)) % 26)) % 26

/-- The letter substitution performed by `encipher` after the rotors have
stepped: plugboard, three forward rotor passes, reflector
(`c = data[4][c] % 26`), three backward passes, plugboard.  Input and output
are letters coded 0–25. -/
def substitution (e : Enigma) (c : Nat) : Nat :=
  let c := plugAp e c
  let c := rotorF e 2 (rotorF e 1 (rotorF e 0 c))
  let c := get2 e.data 4 c % 26
  let c := rotorB e 2 (rotorB e 1 (rotorB e 0 c))
  plugAp e c

/-- `fn encipher(&mut self, c: u8) -> u8`: returns the output byte and the
updated machine. -/
def encipher (e : Enigma) (c : Nat) : Nat × Enigma :=
  if is_alpha c then
    let e' := advance_rotors e
    (u8add (substitution e' (u8sub (toupper c) 65)) 65, e')
  else (c, e)

/-- Run the machine over a byte stream (the `encipher_file` loop), returning
the output stream and the final machine. -/
def runEnigma (e : Enigma) : List Nat → List Nat × Enigma
  | [] => ([], e)
  | c :: cs =>
    let ye := encipher e c
    let rest := runEnigma ye.2 cs
    (ye.1 :: rest.1, rest.2)

/-- Result of a `read_keyfile` fragment: success, the `usage()` exit
(process exit 1), or an out-of-bounds array-write panic. -/
inductive LoopRes (α : Type) where
  | ok (a : α)
  | usage
  | panicked
deriving Repr, DecidableEq

/-- Result of `read_keyfile` as a whole. -/
inductive KfRes where
  | ok (e : Enigma)
  | usage
  | panicked
deriving Repr, DecidableEq

/-- Decimal value of a digit character, if it is one. -/
def digit? (c : Char) : Option Nat :=
  if 48 ≤ c.toNat ∧ c.toNat ≤ 57 then some (c.toNat - 48) else none

/-- Accumulating digit loop of Rust `str::parse` on integer types: every
character must be a decimal digit. -/
def digitsVal : List Char → Nat → Option Nat
  | [], acc => some acc
  | c :: cs, acc =>
    match digit? c with
    | some d => digitsVal cs (acc * 10 + d)
    | none => none

/-- Rust `str::parse::<usize>` on a whitespace-free token: a nonempty string
of decimal digits whose value fits in 64 bits. -/
def parseNat (s : String) : Option Nat :=
  if s.data = [] then none
  else
    match digitsVal s.data 0 with
    | some n => if n < 2 ^ 64 then some n else none
    | none => none

/-- Rust `str::parse::<u8>` on a whitespace-free token: a nonempty string of
decimal digits whose value fits in 8 bits. -/
def parseU8 (s : String) : Option Nat :=
  if s.data = [] then none
  else
    match digitsVal s.data 0 with
    | some n => if n ≤ 255 then some n else none
    | none => none

/-- The whitespace-separated tokens visible in the line buffer after `n`
calls to `read_line`: `read_line` appends, so the buffer holds the first
`n` lines of the keyfile concatenated (reads past end of file append
nothing). -/
def toks (kf : List (List String)) (n : Nat) : List String :=
  (kf.take n).foldr (fun l acc => l ++ acc) []

/-- A `read_keyfile` token loop writing `arr[count + off] = parse(token)`:
a parse failure is a usage exit, a write at or past `len` is the panic the
fixed-size Rust array would raise. -/
def fillLoop (parse : String → Option Nat) (len off : Nat) :
    List String → List Nat → Nat → LoopRes (List Nat × Nat)
  | [], arr, count => .ok (arr, count)
  | t :: ts, arr, count =>
    match parse t with
    | none => .usage
    | some v =>
      if count + off < len then fillLoop parse len off ts (arr.set (count + off) v) (count + 1)
      else .panicked

/-- The starting-position token loop: breaks once three entries are filled
(`if count >= a.len() { break; }`), so it never writes out of bounds. -/
def posLoop : List String → List Nat → Nat → LoopRes (List Nat × Nat)
  | [], arr, count => .ok (arr, count)
  | t :: ts, arr, count =>
    if 3 ≤ count then .ok (arr, count)
    else
      match parseU8 t with
      | none => .usage
      | some v => posLoop ts (arr.set count v) (count + 1)

/-- `fn read_keyfile(&mut self, p: &str)`, modelled on the keyfile seen as a
list of lines of whitespace-separated tokens. -/
def read_keyfile (e : Enigma) (kf : List (List String)) : KfRes :=
  match fillLoop parseNat 3 0 (toks kf 1) e.order 0 with
  | .usage => .usage
  | .panicked => .panicked
  | .ok oc =>
    if oc.2 < 3 then .usage
    else
      match fillLoop parseU8 8 1 (toks kf 2) e.ring 0 with
      | .usage => .usage
      | .panicked => .panicked
      | .ok rc =>
        if rc.2 < 3 then .usage
        else
          match (toks kf 3).head? with
          | none => .usage
          | some t =>
            match parseNat t with
            | none => .usage
            | some np =>
              match
                (if 0 < np then fillLoop parseU8 13 0 (toks kf 4) e.plugs 0
                 else .ok (e.plugs, 0)) with
              | .usage => .usage
              | .panicked => .panicked
              | .ok pc =>
                match posLoop (toks kf (if 0 < np then 5 else 4)) [0, 0, 0] 0 with
                | .usage => .usage
                | .panicked => .panicked
                | .ok ac =>
                  let st :=
                    [0, 1, 2].foldl
                      (fun (st : List Nat × List Nat × List Nat) idx =>
                        (st.1.set idx (usizeSub (rget st.1 idx) 1),
                         st.2.1.set (idx + 1) (toupper (rget st.2.1 (idx + 1))),
                         st.2.2.set idx (u8sub (toupper (rget ac.1 idx)) 65)))
                      (oc.1, rc.1, e.pos)
                  .ok { e with order := st.1, ring := st.2.1, n_plugs := np,
                                plugs := pc.1, pos := st.2.2 }

/-- A user configuration in the sense of the specification's data model:
rotor order (0-based indices into the rotor pool), ring-setting letters,
disjoint plug pairs, starting positions 0–25. -/
structure Config where
  order : List Nat
  ring : List Nat
  pairs : List (Nat × Nat)
  pos : List Nat

/-- Flatten plug pairs into the byte string stored in `plugs`. -/
def flatPairs (ps : List (Nat × Nat)) : List Nat :=
  ps.foldr (fun p acc => p.1 :: p.2 :: acc) []

/-- Build a machine from a configuration: fill the raw fields of the default
struct and run the wiring compiler `init`. -/
def build (k : Config) : Enigma :=
  init { mainEnigma with
          order := k.order
        , ring := 0 :: k.ring ++ [0, 0, 0, 0]
        , n_plugs := k.pairs.length
        , plugs := flatPairs k.pairs
        , pos := k.pos }

/-- Well-formed configuration: three rotor indices drawn from the pool of
five, three ring letters, at most six plug pairs (the 13-byte `plugs` array
holds at most six two-letter pairs) of pairwise distinct uppercase letters,
three starting positions 0–25. -/
def ValidConfig (k : Config) : Prop :=
  k.order.length = 3 ∧ (∀ x ∈ k.order, x < 5) ∧
  k.ring.length = 3 ∧ (∀ r ∈ k.ring, 65 ≤ r ∧ r ≤ 90) ∧
  k.pairs.length ≤ 6 ∧
  (∀ p ∈ k.pairs, 65 ≤ p.1 ∧ p.1 ≤ 90 ∧ 65 ≤ p.2 ∧ p.2 ≤ 90) ∧
  (flatPairs k.pairs).Nodup ∧
  k.pos.length = 3 ∧ (∀ p ∈ k.pos, p < 26)

/-! ### Basic lemmas about cells, rows and writes -/

theorem rget_set_self {r : List Nat} {j v : Nat} (h : j < r.length) :
    rget (r.set j v) j = v := by
  simp [rget, List.getD_eq_getElem?_getD, List.getElem?_set_eq_of_lt v h]

theorem rget_set_ne {r : List Nat} {i j v : Nat} (h : j ≠ i) :
    rget (r.set j v) i = rget r i := by
  simp [rget, List.getD_eq_getElem?_getD, List.getElem?_set_ne h]

theorem length_set2 (d : List (List Nat)) (i j v : Nat) :
    (set2 d i j v).length = d.length := by
  simp [set2]

theorem row_set2_ne {d : List (List Nat)} {i i' j v : Nat} (h : i ≠ i') :
    row (set2 d i j v) i' = row d i' := by
  simp [row, set2, List.getD_eq_getElem?_getD, List.getElem?_set_ne h]

theorem row_set2_self {d : List (List Nat)} {i j v : Nat} (h : i < d.length) :
    row (set2 d i j v) i = (row d i).set j v := by
  simp [row, set2, List.getD_eq_getElem?_getD, List.getElem?_set_eq_of_lt _ h]

/-- Well-formedness of the working array: 8 rows of 26 cells. -/
def Dim8 (d : List (List Nat)) : Prop :=
  d.length = 8 ∧ ∀ r ∈ d, r.length = 26

theorem row_mem {d : List (List Nat)} {i : Nat} (h : i < d.length) : row d i ∈ d := by
  have : d[i]? = some d[i] := List.getElem?_eq_getElem h
  simp [row, List.getD_eq_getElem?_getD, this]

theorem row_length {d : List (List Nat)} (hd : Dim8 d) {i : Nat} (h : i < 8) :
    (row d i).length = 26 :=
  hd.2 _ (row_mem (hd.1 ▸ h))

theorem dim8_set2 {d : List (List Nat)} (hd : Dim8 d) (i j v : Nat) :
    Dim8 (set2 d i j v) := by
  refine ⟨by simpa [length_set2] using hd.1, fun r hr => ?_⟩
  rcases List.mem_or_eq_of_mem_set hr with h | h
  · exact hd.2 r h
  · subst h
    by_cases hi : i < d.length
    · simpa using hd.2 _ (row_mem hi)
    · have : row d i = [] := by
        simp [row, List.getD_eq_getElem?_getD, List.getElem?_eq_none (Nat.le_of_not_lt hi)]
      rw [this] at hr ⊢
      simp [set2, this, List.set_eq_of_length_le (by simpa using Nat.le_of_not_lt hi)] at hr
      exact hd.2 _ hr

/-! ### Generic lemmas about folds over the working array -/

theorem foldl_inv {α β : Type} {P : β → Prop} {g : β → α → β} {l : List α}
    (h : ∀ b a, a ∈ l → P b → P (g b a)) : ∀ b, P b → P (l.foldl g b) := by
  induction l with
  | nil => intro b hb; simpa using hb
  | cons a l ih =>
    intro b hb
    exact ih (fun b' a' ha' => h b' a' (List.mem_cons_of_mem _ ha'))
      _ (h b a (List.mem_cons_self _ _) hb)

theorem foldl_track {α β γ : Type} {P : β → Prop} {g : β → α → β} {G : γ → α → γ}
    {π : β → γ} {l : List α}
    (hP : ∀ b a, a ∈ l → P b → P (g b a))
    (hg : ∀ b a, a ∈ l → P b → π (g b a) = G (π b) a) :
    ∀ b, P b → π (l.foldl g b) = l.foldl G (π b) := by
  induction l with
  | nil => intro b _; rfl
  | cons a l ih =>
    intro b hb
    rw [List.foldl_cons, List.foldl_cons,
      ih (fun b' a' ha' => hP b' a' (List.mem_cons_of_mem _ ha'))
        (fun b' a' ha' => hg b' a' (List.mem_cons_of_mem _ ha'))
        _ (hP b a (List.mem_cons_self _ _) hb),
      hg b a (List.mem_cons_self _ _) hb]

/-! ### Row-level images of the `init` loops -/

/-- Row-level form of the reflector fill. -/
def reflRowG (r : List Nat) : List Nat :=
  (List.range 26).foldl (fun r j => r.set j ((rget REF_ROTOR j + 26 - 65) % 26)) r

/-- Row-level form of the forward-table fill for rotor `k`. -/
def fwdRowG (k : Nat) (r : List Nat) : List Nat :=
  (List.range 26).foldl (fun r j => r.set j ((rget (row ROTOR k) j + 26 - 65) % 26)) r

/-- Row-level form of the inverse-table fill for rotor `k`. -/
def invRowG (k : Nat) (r : List Nat) : List Nat :=
  (List.range 26).foldl (fun r j => r.set ((rget (row ROTOR k) j + 26 - 65) % 26) j) r

/-- Row-level form of the displacement conversion. -/
def convG (r : List Nat) : List Nat :=
  (List.range 26).foldl (fun r j => r.set j (u8sub (u8add 26 (rget r j)) j % 26)) r

/-- Row-level form of the plugboard identity fill. -/
def identG (r : List Nat) : List Nat :=
  (List.range 26).foldl (fun r i => r.set i i) r

/-- Row-level form of the plug pair loop. -/
def plugRowLoop (plugs : List Nat) : Nat → Nat → List Nat → List Nat
  | 0, _, r => r
  | n + 1, j, r =>
    let j := skipNonAlpha plugs j 15
    let u := u8sub (toupper (rget plugs j)) 65
    let v := u8sub (toupper (rget plugs (j + 1))) 65
    plugRowLoop plugs n (j + 2) ((r.set u v).set v u)


/-! ### Characterization of the `init` phases, row by row -/

theorem dim8_reflPhase {d : List (List Nat)} (hd : Dim8 d) : Dim8 (reflPhase d) := by
  unfold reflPhase
  refine foldl_inv (P := Dim8)
    (g := fun d j => set2 d 4 j ((rget REF_ROTOR j + 26 - 65) % 26))
    (fun b a _ hb => ?_) d hd
  exact dim8_set2 hb 4 a _

theorem row_reflPhase_ne {d : List (List Nat)} {i : Nat} (h : 4 ≠ i) :
    row (reflPhase d) i = row d i := by
  unfold reflPhase
  refine foldl_inv (P := fun d' => row d' i = row d i)
    (g := fun d j => set2 d 4 j ((rget REF_ROTOR j + 26 - 65) % 26))
    (fun b a _ hb => ?_) d rfl
  dsimp only
  rw [row_set2_ne h]
  exact hb

theorem row_reflPhase_self {d : List (List Nat)} (hd : Dim8 d) :
    row (reflPhase d) 4 = reflRowG (row d 4) := by
  unfold reflPhase reflRowG
  refine foldl_track (P := Dim8) (π := fun d' => row d' 4)
    (g := fun d j => set2 d 4 j ((rget REF_ROTOR j + 26 - 65) % 26))
    (G := fun r j => r.set j ((rget REF_ROTOR j + 26 - 65) % 26))
    (fun b a _ hb => ?_) (fun b a _ hb => ?_) d hd
  · exact dim8_set2 hb 4 a _
  · dsimp only
    exact row_set2_self (by rw [hb.1]; omega)

theorem dim8_rotorSlot {d : List (List Nat)} (hd : Dim8 d) (k i : Nat) :
    Dim8 (rotorSlot k i d) := by
  unfold rotorSlot
  refine foldl_inv (P := Dim8)
    (g := fun d j =>
      set2 (set2 d i j ((rget (row ROTOR k) j + 26 - 65) % 26)) (8 - i)
        (get2 (set2 d i j ((rget (row ROTOR k) j + 26 - 65) % 26)) i j) j)
    (fun b a _ hb => ?_) d hd
  exact dim8_set2 (dim8_set2 hb i a _) (8 - i) _ a

theorem row_rotorSlot_ne {d : List (List Nat)} {k i i' : Nat}
    (h1 : i ≠ i') (h2 : 8 - i ≠ i') :
    row (rotorSlot k i d) i' = row d i' := by
  unfold rotorSlot
  refine foldl_inv (P := fun d' => row d' i' = row d i')
    (g := fun d j =>
      set2 (set2 d i j ((rget (row ROTOR k) j + 26 - 65) % 26)) (8 - i)
        (get2 (set2 d i j ((rget (row ROTOR k) j + 26 - 65) % 26)) i j) j)
    (fun b a _ hb => ?_) d rfl
  dsimp only
  rw [row_set2_ne h2, row_set2_ne h1]
  exact hb

theorem row_rotorSlot_fwd {d : List (List Nat)} (hd : Dim8 d) {k i : Nat}
    (hi1 : 1 ≤ i) (hi3 : i ≤ 3) :
    row (rotorSlot k i d) i = fwdRowG k (row d i) := by
  unfold rotorSlot fwdRowG
  refine foldl_track (P := Dim8) (π := fun d' => row d' i)
    (g := fun d j =>
      set2 (set2 d i j ((rget (row ROTOR k) j + 26 - 65) % 26)) (8 - i)
        (get2 (set2 d i j ((rget (row ROTOR k) j + 26 - 65) % 26)) i j) j)
    (G := fun r j => r.set j ((rget (row ROTOR k) j + 26 - 65) % 26))
    (fun b a _ hb => ?_) (fun b a _ hb => ?_) d hd
  · exact dim8_set2 (dim8_set2 hb i a _) (8 - i) _ a
  · have h8 : b.length = 8 := hb.1
    dsimp only
    rw [row_set2_ne (by omega), row_set2_self (by omega)]

theorem row_rotorSlot_inv {d : List (List Nat)} (hd : Dim8 d) {k i : Nat}
    (hi1 : 1 ≤ i) (hi3 : i ≤ 3) :
    row (rotorSlot k i d) (8 - i) = invRowG k (row d (8 - i)) := by
  unfold rotorSlot invRowG
  refine foldl_track (P := Dim8) (π := fun d' => row d' (8 - i))
    (g := fun d j =>
      set2 (set2 d i j ((rget (row ROTOR k) j + 26 - 65) % 26)) (8 - i)
        (get2 (set2 d i j ((rget (row ROTOR k) j + 26 - 65) % 26)) i j) j)
    (G := fun r j => r.set ((rget (row ROTOR k) j + 26 - 65) % 26) j)
    (fun b a _ hb => ?_) (fun b a ha hb => ?_) d hd
  · exact dim8_set2 (dim8_set2 hb i a _) (8 - i) _ a
  · have h8 : b.length = 8 := hb.1
    have hrl : (row b i).length = 26 := row_length hb (by omega)
    dsimp only
    rw [row_set2_self (by rw [length_set2]; omega), row_set2_ne (by omega)]
    congr 1
    simp only [get2]
    rw [row_set2_self (by omega), rget_set_self (by rw [hrl]; exact List.mem_range.1 ha)]

theorem dim8_rowConv {d : List (List Nat)} (hd : Dim8 d) (i : Nat) :
    Dim8 (rowConv i d) := by
  unfold rowConv
  refine foldl_inv (P := Dim8)
    (g := fun d j => set2 d i j (u8sub (u8add 26 (get2 d i j)) j % 26))
    (fun b a _ hb => ?_) d hd
  exact dim8_set2 hb i a _

theorem row_rowConv_ne {d : List (List Nat)} {i i' : Nat} (h : i ≠ i') :
    row (rowConv i d) i' = row d i' := by
  unfold rowConv
  refine foldl_inv (P := fun d' => row d' i' = row d i')
    (g := fun d j => set2 d i j (u8sub (u8add 26 (get2 d i j)) j % 26))
    (fun b a _ hb => ?_) d rfl
  dsimp only
  rw [row_set2_ne h]
  exact hb

theorem row_rowConv_self {d : List (List Nat)} (hd : Dim8 d) {i : Nat} (hi : i < 8) :
    row (rowConv i d) i = convG (row d i) := by
  unfold rowConv convG
  refine foldl_track (P := Dim8) (π := fun d' => row d' i)
    (g := fun d j => set2 d i j (u8sub (u8add 26 (get2 d i j)) j % 26))
    (G := fun r j => r.set j (u8sub (u8add 26 (rget r j)) j % 26))
    (fun b a _ hb => ?_) (fun b a _ hb => ?_) d hd
  · exact dim8_set2 hb i a _
  · have h8 : b.length = 8 := hb.1
    dsimp only
    rw [row_set2_self (by omega)]
    rfl

theorem dim8_plugIdent {d : List (List Nat)} (hd : Dim8 d) : Dim8 (plugIdent d) := by
  unfold plugIdent
  refine foldl_inv (P := Dim8) (g := fun d i => set2 d 0 i i)
    (fun b a _ hb => ?_) d hd
  exact dim8_set2 hb 0 a a

theorem row_plugIdent_ne {d : List (List Nat)} {i : Nat} (h : 0 ≠ i) :
    row (plugIdent d) i = row d i := by
  unfold plugIdent
  refine foldl_inv (P := fun d' => row d' i = row d i) (g := fun d i => set2 d 0 i i)
    (fun b a _ hb => ?_) d rfl
  dsimp only
  rw [row_set2_ne h]
  exact hb

theorem row_plugIdent_self {d : List (List Nat)} (hd : Dim8 d) :
    row (plugIdent d) 0 = identG (row d 0) := by
  unfold plugIdent identG
  refine foldl_track (P := Dim8) (π := fun d' => row d' 0)
    (g := fun d i => set2 d 0 i i) (G := fun r i => r.set i i)
    (fun b a _ hb => ?_) (fun b a _ hb => ?_) d hd
  · exact dim8_set2 hb 0 a a
  · dsimp only
    exact row_set2_self (by rw [hb.1]; omega)

theorem dim8_plugLoop {p : List Nat} :
    ∀ {n j : Nat} {d : List (List Nat)}, Dim8 d → Dim8 (plugLoop p n j d)
  | 0, _, _, hd => hd
  | n + 1, j, d, hd => by
    simp only [plugLoop]
    exact dim8_plugLoop (dim8_set2 (dim8_set2 hd 0 _ _) 0 _ _)

theorem row_plugLoop_ne {p : List Nat} {i : Nat} (h : 0 ≠ i) :
    ∀ {n j : Nat} {d : List (List Nat)}, row (plugLoop p n j d) i = row d i
  | 0, _, _ => rfl
  | n + 1, j, d => by
    simp only [plugLoop]
    rw [row_plugLoop_ne h (n := n), row_set2_ne h, row_set2_ne h]

theorem row_plugLoop_self {p : List Nat} :
    ∀ {n j : Nat} {d : List (List Nat)}, Dim8 d →
      row (plugLoop p n j d) 0 = plugRowLoop p n j (row d 0)
  | 0, _, _, _ => rfl
  | n + 1, j, d, hd => by
    have h8 : d.length = 8 := hd.1
    simp only [plugLoop, plugRowLoop]
    rw [row_plugLoop_self (n := n) (dim8_set2 (dim8_set2 hd 0 _ _) 0 _ _),
      row_set2_self (by rw [length_set2]; omega),
      row_set2_self (by omega)]

theorem dim8_plugPhase {d : List (List Nat)} (hd : Dim8 d) (np : Nat) (p : List Nat) :
    Dim8 (plugPhase np p d) := by
  unfold plugPhase
  split
  · exact dim8_plugLoop (dim8_plugIdent hd)
  · exact hd

theorem row_plugPhase_ne {d : List (List Nat)} {np : Nat} {p : List Nat} {i : Nat}
    (h : 0 ≠ i) : row (plugPhase np p d) i = row d i := by
  unfold plugPhase
  split
  · rw [row_plugLoop_ne h, row_plugIdent_ne h]
  · rfl

theorem row_plugPhase_self {d : List (List Nat)} (hd : Dim8 d) {np : Nat}
    (hnp : np ≠ 0) (p : List Nat) :
    row (plugPhase np p d) 0 = plugRowLoop p np 0 (identG (row d 0)) := by
  unfold plugPhase
  rw [if_pos hnp, row_plugLoop_self (dim8_plugIdent hd), row_plugIdent_self hd]

/-! ### The compiled machine built from a configuration -/

theorem ringPhase_ringA (X : List (List Nat)) :
    ringPhase [0, 65, 65, 65, 0, 65, 65, 65] X = X := rfl

theorem build_data_eq (k : Config) (hr : k.ring = [65, 65, 65]) :
    (build k).data = dispPhase (plugPhase k.pairs.length (flatPairs k.pairs)
      (rotorSlot (rget k.order 2) 3 (rotorSlot (rget k.order 1) 2 (rotorSlot (rget k.order 0) 1
        (reflPhase (List.replicate 8 (List.replicate 26 0))))))) := by
  simp only [build, init, rotorPhase, mainEnigma, hr]
  have hR : (((([0, 65, 65, 65] ++ [0, 0, 0, 0]).set 7
      (rget ([0, 65, 65, 65] ++ [0, 0, 0, 0]) 1)).set 6
      (rget ([0, 65, 65, 65] ++ [0, 0, 0, 0]) 2)).set 5
      (rget ([0, 65, 65, 65] ++ [0, 0, 0, 0]) 3) : List Nat) = [0, 65, 65, 65, 0, 65, 65, 65] := by
    decide
  rw [hR, ringPhase_ringA]

theorem build_step_eq (k : Config) :
    (build k).step = [rget step_data (rget k.order 0), rget step_data (rget k.order 1),
      rget step_data (rget k.order 2)] := rfl

theorem build_pos_eq (k : Config) : (build k).pos = k.pos := rfl

theorem build_nplugs_eq (k : Config) : (build k).n_plugs = k.pairs.length := rfl

theorem dim8_zeros : Dim8 (List.replicate 8 (List.replicate 26 0)) := by
  constructor
  · simp
  · intro r hr
    rw [List.eq_of_mem_replicate hr]
    simp

/-! ### Closed row forms and the rows of a freshly built machine -/

/-- The all-zero 26-cell row. -/
def zeros26 : List Nat := List.replicate 26 0

/-- Forward displacement table of rotor `k` at ring offset 0. -/
def fwdDisp (k : Nat) : List Nat := convG (fwdRowG k zeros26)

/-- Backward displacement table of rotor `k` at ring offset 0. -/
def bwdDisp (k : Nat) : List Nat := convG (invRowG k zeros26)

/-- Absolute (not displacement-converted) reflector table. -/
def reflAbs : List Nat := reflRowG zeros26

/-- The identity plugboard row. -/
def idRow : List Nat := identG zeros26

theorem row_zeros (i : Nat) (h : i < 8) :
    row (List.replicate 8 (List.replicate 26 0)) i = zeros26 := by
  interval_cases i <;> rfl

theorem row_rotorSlot_ne' {d : List (List Nat)} (k i i' : Nat)
    (h1 : i ≠ i') (h2 : 8 - i ≠ i') : row (rotorSlot k i d) i' = row d i' :=
  row_rotorSlot_ne h1 h2

theorem row_rotorSlot_fwd' {d : List (List Nat)} (k i : Nat) (hd : Dim8 d)
    (hi1 : 1 ≤ i) (hi3 : i ≤ 3) : row (rotorSlot k i d) i = fwdRowG k (row d i) :=
  row_rotorSlot_fwd hd hi1 hi3

theorem row_reflPhase_ne' {d : List (List Nat)} (i : Nat) (h : 4 ≠ i) :
    row (reflPhase d) i = row d i := row_reflPhase_ne h

theorem row_rowConv_ne' {d : List (List Nat)} (i i' : Nat) (h : i ≠ i') :
    row (rowConv i d) i' = row d i' := row_rowConv_ne h

theorem row_rowConv_self' {d : List (List Nat)} (i : Nat) (hd : Dim8 d) (hi : i < 8) :
    row (rowConv i d) i = convG (row d i) := row_rowConv_self hd hi

theorem rows_afterSlots (a b c : Nat) :
    Dim8 (rotorSlot c 3 (rotorSlot b 2 (rotorSlot a 1
        (reflPhase (List.replicate 8 (List.replicate 26 0)))))) ∧
    row (rotorSlot c 3 (rotorSlot b 2 (rotorSlot a 1
        (reflPhase (List.replicate 8 (List.replicate 26 0)))))) 0 = zeros26 ∧
    row (rotorSlot c 3 (rotorSlot b 2 (rotorSlot a 1
        (reflPhase (List.replicate 8 (List.replicate 26 0)))))) 1 = fwdRowG a zeros26 ∧
    row (rotorSlot c 3 (rotorSlot b 2 (rotorSlot a 1
        (reflPhase (List.replicate 8 (List.replicate 26 0)))))) 2 = fwdRowG b zeros26 ∧
    row (rotorSlot c 3 (rotorSlot b 2 (rotorSlot a 1
        (reflPhase (List.replicate 8 (List.replicate 26 0)))))) 3 = fwdRowG c zeros26 ∧
    row (rotorSlot c 3 (rotorSlot b 2 (rotorSlot a 1
        (reflPhase (List.replicate 8 (List.replicate 26 0)))))) 4 = reflRowG zeros26 ∧
    row (rotorSlot c 3 (rotorSlot b 2 (rotorSlot a 1
        (reflPhase (List.replicate 8 (List.replicate 26 0)))))) 5 = invRowG c zeros26 ∧
    row (rotorSlot c 3 (rotorSlot b 2 (rotorSlot a 1
        (reflPhase (List.replicate 8 (List.replicate 26 0)))))) 6 = invRowG b zeros26 ∧
    row (rotorSlot c 3 (rotorSlot b 2 (rotorSlot a 1
        (reflPhase (List.replicate 8 (List.replicate 26 0)))))) 7 = invRowG a zeros26 := by
  have hd0 : Dim8 (List.replicate 8 (List.replicate 26 0)) := dim8_zeros
  have hdR := dim8_reflPhase hd0
  have hd1 := dim8_rotorSlot hdR a 1
  have hd2 := dim8_rotorSlot hd1 b 2
  have hd3 := dim8_rotorSlot hd2 c 3
  have h1i := row_rotorSlot_inv hdR (k := a) (i := 1) (by norm_num) (by norm_num)
  have h2i := row_rotorSlot_inv hd1 (k := b) (i := 2) (by norm_num) (by norm_num)
  have h3i := row_rotorSlot_inv hd2 (k := c) (i := 3) (by norm_num) (by norm_num)
  norm_num at h1i h2i h3i
  refine ⟨hd3, ?_, ?_, ?_, ?_, ?_, ?_, ?_, ?_⟩
  · rw [row_rotorSlot_ne' c 3 0 (by norm_num) (by norm_num),
      row_rotorSlot_ne' b 2 0 (by norm_num) (by norm_num),
      row_rotorSlot_ne' a 1 0 (by norm_num) (by norm_num),
      row_reflPhase_ne' 0 (by norm_num), row_zeros 0 (by norm_num)]
  · rw [row_rotorSlot_ne' c 3 1 (by norm_num) (by norm_num),
      row_rotorSlot_ne' b 2 1 (by norm_num) (by norm_num),
      row_rotorSlot_fwd' a 1 hdR (by norm_num) (by norm_num),
      row_reflPhase_ne' 1 (by norm_num), row_zeros 1 (by norm_num)]
  · rw [row_rotorSlot_ne' c 3 2 (by norm_num) (by norm_num),
      row_rotorSlot_fwd' b 2 hd1 (by norm_num) (by norm_num),
      row_rotorSlot_ne' a 1 2 (by norm_num) (by norm_num),
      row_reflPhase_ne' 2 (by norm_num), row_zeros 2 (by norm_num)]
  · rw [row_rotorSlot_fwd' c 3 hd2 (by norm_num) (by norm_num),
      row_rotorSlot_ne' b 2 3 (by norm_num) (by norm_num),
      row_rotorSlot_ne' a 1 3 (by norm_num) (by norm_num),
      row_reflPhase_ne' 3 (by norm_num), row_zeros 3 (by norm_num)]
  · rw [row_rotorSlot_ne' c 3 4 (by norm_num) (by norm_num),
      row_rotorSlot_ne' b 2 4 (by norm_num) (by norm_num),
      row_rotorSlot_ne' a 1 4 (by norm_num) (by norm_num),
      row_reflPhase_self hd0, row_zeros 4 (by norm_num)]
  · rw [h3i, row_rotorSlot_ne' b 2 5 (by norm_num) (by norm_num),
      row_rotorSlot_ne' a 1 5 (by norm_num) (by norm_num),
      row_reflPhase_ne' 5 (by norm_num), row_zeros 5 (by norm_num)]
  · rw [row_rotorSlot_ne' c 3 6 (by norm_num) (by norm_num), h2i,
      row_rotorSlot_ne' a 1 6 (by norm_num) (by norm_num),
      row_reflPhase_ne' 6 (by norm_num), row_zeros 6 (by norm_num)]
  · rw [row_rotorSlot_ne' c 3 7 (by norm_num) (by norm_num),
      row_rotorSlot_ne' b 2 7 (by norm_num) (by norm_num), h1i,
      row_reflPhase_ne' 7 (by norm_num), row_zeros 7 (by norm_num)]

theorem dim8_dispPhase {d : List (List Nat)} (hd : Dim8 d) : Dim8 (dispPhase d) := by
  unfold dispPhase
  exact dim8_rowConv (dim8_rowConv (dim8_rowConv (dim8_rowConv (dim8_rowConv
    (dim8_rowConv hd 1) 2) 3) 5) 6) 7

theorem rows_dispPhase {d : List (List Nat)} (hd : Dim8 d) :
    row (dispPhase d) 0 = row d 0 ∧
    row (dispPhase d) 1 = convG (row d 1) ∧
    row (dispPhase d) 2 = convG (row d 2) ∧
    row (dispPhase d) 3 = convG (row d 3) ∧
    row (dispPhase d) 4 = row d 4 ∧
    row (dispPhase d) 5 = convG (row d 5) ∧
    row (dispPhase d) 6 = convG (row d 6) ∧
    row (dispPhase d) 7 = convG (row d 7) := by
  have hc1 := dim8_rowConv hd 1
  have hc2 := dim8_rowConv hc1 2
  have hc3 := dim8_rowConv hc2 3
  have hc5 := dim8_rowConv hc3 5
  have hc6 := dim8_rowConv hc5 6
  unfold dispPhase
  refine ⟨?_, ?_, ?_, ?_, ?_, ?_, ?_, ?_⟩
  · rw [row_rowConv_ne' 7 0 (by norm_num), row_rowConv_ne' 6 0 (by norm_num),
      row_rowConv_ne' 5 0 (by norm_num), row_rowConv_ne' 3 0 (by norm_num),
      row_rowConv_ne' 2 0 (by norm_num), row_rowConv_ne' 1 0 (by norm_num)]
  · rw [row_rowConv_ne' 7 1 (by norm_num), row_rowConv_ne' 6 1 (by norm_num),
      row_rowConv_ne' 5 1 (by norm_num), row_rowConv_ne' 3 1 (by norm_num),
      row_rowConv_ne' 2 1 (by norm_num), row_rowConv_self' 1 hd (by norm_num)]
  · rw [row_rowConv_ne' 7 2 (by norm_num), row_rowConv_ne' 6 2 (by norm_num),
      row_rowConv_ne' 5 2 (by norm_num), row_rowConv_ne' 3 2 (by norm_num),
      row_rowConv_self' 2 hc1 (by norm_num), row_rowConv_ne' 1 2 (by norm_num)]
  · rw [row_rowConv_ne' 7 3 (by norm_num), row_rowConv_ne' 6 3 (by norm_num),
      row_rowConv_ne' 5 3 (by norm_num), row_rowConv_self' 3 hc2 (by norm_num),
      row_rowConv_ne' 2 3 (by norm_num), row_rowConv_ne' 1 3 (by norm_num)]
  · rw [row_rowConv_ne' 7 4 (by norm_num), row_rowConv_ne' 6 4 (by norm_num),
      row_rowConv_ne' 5 4 (by norm_num), row_rowConv_ne' 3 4 (by norm_num),
      row_rowConv_ne' 2 4 (by norm_num), row_rowConv_ne' 1 4 (by norm_num)]
  · rw [row_rowConv_ne' 7 5 (by norm_num), row_rowConv_ne' 6 5 (by norm_num),
      row_rowConv_self' 5 hc3 (by norm_num), row_rowConv_ne' 3 5 (by norm_num),
      row_rowConv_ne' 2 5 (by norm_num), row_rowConv_ne' 1 5 (by norm_num)]
  · rw [row_rowConv_ne' 7 6 (by norm_num), row_rowConv_self' 6 hc5 (by norm_num),
      row_rowConv_ne' 5 6 (by norm_num), row_rowConv_ne' 3 6 (by norm_num),
      row_rowConv_ne' 2 6 (by norm_num), row_rowConv_ne' 1 6 (by norm_num)]
  · rw [row_rowConv_self' 7 hc6 (by norm_num), row_rowConv_ne' 6 7 (by norm_num),
      row_rowConv_ne' 5 7 (by norm_num), row_rowConv_ne' 3 7 (by norm_num),
      row_rowConv_ne' 2 7 (by norm_num), row_rowConv_ne' 1 7 (by norm_num)]

theorem build_rows (k : Config) (hr : k.ring = [65, 65, 65]) :
    Dim8 (build k).data ∧
    row (build k).data 1 = fwdDisp (rget k.order 0) ∧
    row (build k).data 2 = fwdDisp (rget k.order 1) ∧
    row (build k).data 3 = fwdDisp (rget k.order 2) ∧
    row (build k).data 4 = reflAbs ∧
    row (build k).data 5 = bwdDisp (rget k.order 2) ∧
    row (build k).data 6 = bwdDisp (rget k.order 1) ∧
    row (build k).data 7 = bwdDisp (rget k.order 0) ∧
    (k.pairs.length ≠ 0 →
      row (build k).data 0 = plugRowLoop (flatPairs k.pairs) k.pairs.length 0 idRow) := by
  obtain ⟨hX, hx0, hx1, hx2, hx3, hx4, hx5, hx6, hx7⟩ :=
    rows_afterSlots (rget k.order 0) (rget k.order 1) (rget k.order 2)
  have hP := dim8_plugPhase hX k.pairs.length (flatPairs k.pairs)
  obtain ⟨g0, g1, g2, g3, g4, g5, g6, g7⟩ := rows_dispPhase hP
  rw [build_data_eq k hr]
  refine ⟨dim8_dispPhase hP, ?_, ?_, ?_, ?_, ?_, ?_, ?_, ?_⟩
  · rw [g1, row_plugPhase_ne (by norm_num), hx1]
    rfl
  · rw [g2, row_plugPhase_ne (by norm_num), hx2]
    rfl
  · rw [g3, row_plugPhase_ne (by norm_num), hx3]
    rfl
  · rw [g4, row_plugPhase_ne (by norm_num), hx4]
    rfl
  · rw [g5, row_plugPhase_ne (by norm_num), hx5]
    rfl
  · rw [g6, row_plugPhase_ne (by norm_num), hx6]
    rfl
  · rw [g7, row_plugPhase_ne (by norm_num), hx7]
    rfl
  · intro hnp
    rw [g0, row_plugPhase_self hX hnp, hx0]
    rfl

/-! ### Per-rotor inverse facts for the displacement tables (ring offset 0) -/

/-- The forward and backward passes of one rotor slot at any fixed position
are mutually inverse maps on letters 0–25. -/
def SlotOK (f b : List Nat) : Prop :=
  ∀ p < 26, ∀ c < 26,
    (c + rget f ((c + p) % 26)) % 26 < 26 ∧
    ((c + rget f ((c + p) % 26)) % 26 +
        rget b (((c + rget f ((c + p) % 26)) % 26 + p) % 26)) % 26 = c ∧
    (c + rget b ((c + p) % 26)) % 26 < 26 ∧
    ((c + rget b ((c + p) % 26)) % 26 +
        rget f (((c + rget b ((c + p) % 26)) % 26 + p) % 26)) % 26 = c

set_option maxHeartbeats 4000000 in
theorem slotOK_all : ∀ k < 5, SlotOK (fwdDisp k) (bwdDisp k) := by
  unfold SlotOK
  decide

set_option maxHeartbeats 1000000 in
theorem rowvals_lt : ∀ k < 5, ∀ j < 26, rget (fwdDisp k) j < 26 ∧ rget (bwdDisp k) j < 26 := by
  decide

theorem reflAbs_invol : ∀ c < 26, rget reflAbs c < 26 ∧ rget reflAbs (rget reflAbs c) = c := by
  decide

/-! ### The plugboard table is a self-inverse permutation for valid plug pairs -/

/-- A 26-cell row that is a self-inverse map on letters 0–25. -/
def PlugInv (r : List Nat) : Prop :=
  ∀ x < 26, rget r x < 26 ∧ rget r (rget r x) = x

theorem rget_append_right (pre l : List Nat) (i : Nat) :
    rget (pre ++ l) (pre.length + i) = rget l i := by
  simp [rget, List.getD_eq_getElem?_getD,
    List.getElem?_append_right (Nat.le_add_right pre.length i)]

theorem u8sub65 {a : Nat} (h1 : 65 ≤ a) (h2 : a ≤ 255) : u8sub a 65 = a - 65 := by
  unfold u8sub
  omega

theorem toupper_upper {a : Nat} (h2 : a ≤ 90) : toupper a = a := by
  unfold toupper
  rw [if_neg (by omega)]

theorem skip_alpha {p : List Nat} {j : Nat} (h : is_alpha (rget p j) = true) :
    skipNonAlpha p j 15 = j := by
  show skipNonAlpha p j (14 + 1) = j
  rw [skipNonAlpha, if_pos h]

theorem is_alpha_upper {a : Nat} (h1 : 65 ≤ a) (h2 : a ≤ 90) : is_alpha a = true := by
  simp [is_alpha]
  omega

theorem flatPairs_cons (q : Nat × Nat) (qs : List (Nat × Nat)) :
    flatPairs (q :: qs) = q.1 :: q.2 :: flatPairs qs := rfl

/-- Row-level plug fold over the pair list itself. -/
def pairsFold (qs : List (Nat × Nat)) (r : List Nat) : List Nat :=
  qs.foldl (fun r q => (r.set (q.1 - 65) (q.2 - 65)).set (q.2 - 65) (q.1 - 65)) r

theorem plugRowLoop_pairs :
    ∀ (qs : List (Nat × Nat)) (pre : List Nat) (r : List Nat),
      (∀ q ∈ qs, 65 ≤ q.1 ∧ q.1 ≤ 90 ∧ 65 ≤ q.2 ∧ q.2 ≤ 90) →
      plugRowLoop (pre ++ flatPairs qs) qs.length pre.length r = pairsFold qs r
  | [], pre, r, _ => rfl
  | q :: qs, pre, r, hq => by
    have hq1 := hq q (List.mem_cons_self _ _)
    have hget1 : rget (pre ++ flatPairs (q :: qs)) pre.length = q.1 := by
      have := rget_append_right pre (flatPairs (q :: qs)) 0
      simpa [flatPairs_cons, rget] using this
    have hget2 : rget (pre ++ flatPairs (q :: qs)) (pre.length + 1) = q.2 := by
      have := rget_append_right pre (flatPairs (q :: qs)) 1
      simpa [flatPairs_cons, rget] using this
    have hlen : (q :: qs).length = qs.length + 1 := rfl
    rw [hlen, plugRowLoop]
    rw [skip_alpha (by rw [hget1]; exact is_alpha_upper hq1.1 hq1.2.1), hget1, hget2,
      toupper_upper hq1.2.1, toupper_upper hq1.2.2.2, u8sub65 hq1.1 (by omega),
      u8sub65 hq1.2.2.1 (by omega)]
    have hstep : pre ++ flatPairs (q :: qs) = (pre ++ [q.1, q.2]) ++ flatPairs qs := by
      simp [flatPairs_cons]
    have hjlen : pre.length + 2 = (pre ++ [q.1, q.2]).length := by simp
    rw [hstep, hjlen, plugRowLoop_pairs qs (pre ++ [q.1, q.2]) _
      (fun q' hq' => hq q' (List.mem_cons_of_mem _ hq'))]
    rfl

theorem mem_flatPairs {qs : List (Nat × Nat)} {q : Nat × Nat} (h : q ∈ qs) :
    q.1 ∈ flatPairs qs ∧ q.2 ∈ flatPairs qs := by
  induction qs with
  | nil => cases h
  | cons q' qs ih =>
    rw [flatPairs_cons]
    rcases List.mem_cons.1 h with rfl | h'
    · simp
    · have := ih h'
      simp [this.1, this.2]

theorem rget_set_self' (r : List Nat) (j v : Nat) (h : j < r.length) :
    rget (r.set j v) j = v := rget_set_self h

theorem rget_set_ne2 (r : List Nat) (j i v : Nat) (h : j ≠ i) :
    rget (r.set j v) i = rget r i := rget_set_ne h

theorem pairsFold_inv :
    ∀ (qs : List (Nat × Nat)) (r : List Nat),
      r.length = 26 →
      (∀ x < 26, rget r x < 26 ∧ rget r (rget r x) = x) →
      (∀ q ∈ qs, 65 ≤ q.1 ∧ q.1 ≤ 90 ∧ 65 ≤ q.2 ∧ q.2 ≤ 90) →
      (flatPairs qs).Nodup →
      (∀ q ∈ qs, rget r (q.1 - 65) = q.1 - 65 ∧ rget r (q.2 - 65) = q.2 - 65) →
      (pairsFold qs r).length = 26 ∧
        ∀ x < 26, rget (pairsFold qs r) x < 26 ∧
          rget (pairsFold qs r) (rget (pairsFold qs r) x) = x
  | [], r, hlen, hinv, _, _, _ => ⟨hlen, hinv⟩
  | q :: qs, r, hlen, hinv, hrange, hnodup, hfresh => by
    have hq := hrange q (List.mem_cons_self _ _)
    set u := q.1 - 65 with hu
    set v := q.2 - 65 with hv
    have hu26 : u < 26 := by omega
    have hv26 : v < 26 := by omega
    have huv : u ≠ v := by
      rw [flatPairs_cons] at hnodup
      have h12 : q.1 ≠ q.2 := by
        intro hcon
        exact (List.nodup_cons.1 hnodup).1 (by simp [hcon])
      omega
    have hfq := hfresh q (List.mem_cons_self _ _)
    have hru : rget r u = u := hfq.1
    have hrv : rget r v = v := hfq.2
    have hlen1 : ((r.set u v).set v u).length = 26 := by simp [hlen]
    have e1 : rget ((r.set u v).set v u) u = v := by
      rw [rget_set_ne2 (r.set u v) v u u (fun h => huv h.symm),
        rget_set_self' r u v (by omega)]
    have e2 : rget ((r.set u v).set v u) v = u := by
      rw [rget_set_self' (r.set u v) v u (by rw [List.length_set]; omega)]
    have hinv1 : ∀ x < 26, rget ((r.set u v).set v u) x < 26 ∧
        rget ((r.set u v).set v u) (rget ((r.set u v).set v u) x) = x := by
      intro x hx
      by_cases hxu : x = u
      · rw [hxu, e1, e2]
        exact ⟨by omega, rfl⟩
      · by_cases hxv : x = v
        · rw [hxv, e2, e1]
          exact ⟨by omega, rfl⟩
        · have f1 : rget ((r.set u v).set v u) x = rget r x := by
            rw [rget_set_ne2 (r.set u v) v x u (fun h => hxv h.symm),
              rget_set_ne2 r u x v (fun h => hxu h.symm)]
          have hrx := hinv x hx
          have hrxu : rget r x ≠ u := by
            intro hcon
            apply hxu
            have h2x := hrx.2
            rw [hcon, hru] at h2x
            exact h2x.symm
          have hrxv : rget r x ≠ v := by
            intro hcon
            apply hxv
            have h2x := hrx.2
            rw [hcon, hrv] at h2x
            exact h2x.symm
          have f2 : rget ((r.set u v).set v u) (rget r x) = rget r (rget r x) := by
            rw [rget_set_ne2 (r.set u v) v (rget r x) u (fun h => hrxv h.symm),
              rget_set_ne2 r u (rget r x) v (fun h => hrxu h.symm)]
          rw [f1, f2, hrx.2]
          exact ⟨hrx.1, rfl⟩
    have hrest : ∀ q' ∈ qs, rget ((r.set u v).set v u) (q'.1 - 65) = q'.1 - 65 ∧
        rget ((r.set u v).set v u) (q'.2 - 65) = q'.2 - 65 := by
      intro q' hq'
      have hm := mem_flatPairs hq'
      have hq'r := hrange q' (List.mem_cons_of_mem _ hq')
      rw [flatPairs_cons] at hnodup
      have h1 := List.nodup_cons.1 hnodup
      have h2 := List.nodup_cons.1 h1.2
      have hne1 : q'.1 ≠ q.1 := fun hcon => h1.1 (by simp [← hcon, hm.1])
      have hne2 : q'.1 ≠ q.2 := fun hcon => h2.1 (by rw [← hcon]; exact hm.1)
      have hne3 : q'.2 ≠ q.1 := fun hcon => h1.1 (by simp [← hcon, hm.2])
      have hne4 : q'.2 ≠ q.2 := fun hcon => h2.1 (by rw [← hcon]; exact hm.2)
      have hfr := hfresh q' (List.mem_cons_of_mem _ hq')
      constructor
      · rw [rget_set_ne2 (r.set u v) v (q'.1 - 65) u (by omega),
          rget_set_ne2 r u (q'.1 - 65) v (by omega)]
        exact hfr.1
      · rw [rget_set_ne2 (r.set u v) v (q'.2 - 65) u (by omega),
          rget_set_ne2 r u (q'.2 - 65) v (by omega)]
        exact hfr.2
    have hnodup' : (flatPairs qs).Nodup := by
      rw [flatPairs_cons] at hnodup
      exact ((List.nodup_cons.1 (List.nodup_cons.1 hnodup).2)).2
    exact pairsFold_inv qs ((r.set u v).set v u) hlen1 hinv1
      (fun q' hq' => hrange q' (List.mem_cons_of_mem _ hq')) hnodup' hrest

theorem idRow_spec : idRow.length = 26 ∧ ∀ x < 26, rget idRow x = x := by decide

/-! ### The fixed-position substitution is an involution on good machines -/

/-- Machine states whose tables are wiring-compiler output at ring offset 0
with a self-inverse plugboard row. -/
def GoodTables (e : Enigma) : Prop :=
  (∃ k1, k1 < 5 ∧ ∃ k2, k2 < 5 ∧ ∃ k3, k3 < 5 ∧
    row e.data 1 = fwdDisp k1 ∧ row e.data 2 = fwdDisp k2 ∧ row e.data 3 = fwdDisp k3 ∧
    row e.data 5 = bwdDisp k3 ∧ row e.data 6 = bwdDisp k2 ∧ row e.data 7 = bwdDisp k1) ∧
  row e.data 4 = reflAbs ∧
  (e.n_plugs ≠ 0 → PlugInv (row e.data 0))

/-- The three rotor positions exist and are in range. -/
def PosOK (e : Enigma) : Prop :=
  e.pos.length = 3 ∧ rget e.pos 0 < 26 ∧ rget e.pos 1 < 26 ∧ rget e.pos 2 < 26

theorem u8add_small {a b : Nat} (ha : a < 26) (hb : b < 26) : u8add a b = a + b := by
  unfold u8add
  omega

theorem plugAp_invol {e : Enigma} (hplug : e.n_plugs ≠ 0 → PlugInv (row e.data 0)) :
    ∀ x < 26, plugAp e x < 26 ∧ plugAp e (plugAp e x) = x := by
  intro x hx
  by_cases hnp : e.n_plugs ≠ 0
  · have hiv := hplug hnp
    have h1 := hiv x hx
    simp only [plugAp, if_pos hnp, get2]
    exact ⟨h1.1, h1.2⟩
  · simp only [plugAp, if_neg hnp]
    exact ⟨hx, trivial⟩

theorem rotorF_eq {e : Enigma} {j : Nat} {f : List Nat} (hrow : row e.data (j + 1) = f)
    (hpos : rget e.pos j < 26) (hvals : ∀ i < 26, rget f i < 26) :
    ∀ x < 26, rotorF e j x = (x + rget f ((x + rget e.pos j) % 26)) % 26 ∧
      rotorF e j x < 26 := by
  intro x hx
  unfold rotorF
  rw [u8add_small hx hpos, get2, hrow]
  have hidx : (x + rget e.pos j) % 26 < 26 := Nat.mod_lt _ (by norm_num)
  rw [u8add_small hx (hvals _ hidx)]
  exact ⟨rfl, Nat.mod_lt _ (by norm_num)⟩

theorem rotorB_eq {e : Enigma} {j m : Nat} {b : List Nat} (hrow : row e.data (j + 5) = b)
    (hm : 2 - j = m) (hpos : rget e.pos m < 26) (hvals : ∀ i < 26, rget b i < 26) :
    ∀ x < 26, rotorB e j x = (x + rget b ((x + rget e.pos m) % 26)) % 26 ∧
      rotorB e j x < 26 := by
  intro x hx
  unfold rotorB
  rw [hm, u8add_small hx hpos, get2, hrow]
  have hidx : (x + rget e.pos m) % 26 < 26 := Nat.mod_lt _ (by norm_num)
  rw [u8add_small hx (hvals _ hidx)]
  exact ⟨rfl, Nat.mod_lt _ (by norm_num)⟩

theorem reflAp_eq {e : Enigma} (h4 : row e.data 4 = reflAbs) :
    ∀ x < 26, get2 e.data 4 x % 26 = rget reflAbs x ∧ get2 e.data 4 x % 26 < 26 ∧
      get2 e.data 4 (get2 e.data 4 x % 26) % 26 = x := by
  intro x hx
  have h1 := reflAbs_invol x hx
  have hmod : rget reflAbs x % 26 = rget reflAbs x := Nat.mod_eq_of_lt h1.1
  simp only [get2, h4]
  refine ⟨hmod, by rw [hmod]; exact h1.1, ?_⟩
  rw [hmod]
  have h2 := reflAbs_invol _ h1.1
  rw [Nat.mod_eq_of_lt h2.1]
  exact h1.2

theorem substitution_invol {e : Enigma} (hT : GoodTables e) (hP : PosOK e) :
    ∀ c < 26, substitution e c < 26 ∧ substitution e (substitution e c) = c := by
  obtain ⟨⟨k1, hk1, k2, hk2, k3, hk3, h1, h2, h3, h5, h6, h7⟩, h4, hplug⟩ := hT
  obtain ⟨hlen, hp0, hp1, hp2⟩ := hP
  have vals1 := fun i hi => (rowvals_lt k1 hk1 i hi).1
  have vals2 := fun i hi => (rowvals_lt k2 hk2 i hi).1
  have vals3 := fun i hi => (rowvals_lt k3 hk3 i hi).1
  have vals5 := fun i hi => (rowvals_lt k3 hk3 i hi).2
  have vals6 := fun i hi => (rowvals_lt k2 hk2 i hi).2
  have vals7 := fun i hi => (rowvals_lt k1 hk1 i hi).2
  have plugF := plugAp_invol hplug
  have F0 := rotorF_eq (j := 0) h1 hp0 vals1
  have F1 := rotorF_eq (j := 1) h2 hp1 vals2
  have F2 := rotorF_eq (j := 2) h3 hp2 vals3
  have B0 := rotorB_eq (j := 0) (m := 2) h5 rfl hp2 vals5
  have B1 := rotorB_eq (j := 1) (m := 1) h6 rfl hp1 vals6
  have B2 := rotorB_eq (j := 2) (m := 0) h7 rfl hp0 vals7
  have R := reflAp_eq h4
  -- the three slot pairs undo each other at the shared position
  have S1 := slotOK_all k1 hk1 (rget e.pos 0) hp0
  have S2 := slotOK_all k2 hk2 (rget e.pos 1) hp1
  have S3 := slotOK_all k3 hk3 (rget e.pos 2) hp2
  have FB2 : ∀ x < 26, rotorB e 0 (rotorF e 2 x) = x ∧ rotorF e 2 x < 26 := by
    intro x hx
    have hF := F2 x hx
    have hB := B0 _ hF.2
    refine ⟨?_, hF.2⟩
    rw [hB.1, hF.1]
    exact (S3 x hx).2.1
  have FB1 : ∀ x < 26, rotorB e 1 (rotorF e 1 x) = x ∧ rotorF e 1 x < 26 := by
    intro x hx
    have hF := F1 x hx
    have hB := B1 _ hF.2
    refine ⟨?_, hF.2⟩
    rw [hB.1, hF.1]
    exact (S2 x hx).2.1
  have FB0 : ∀ x < 26, rotorB e 2 (rotorF e 0 x) = x ∧ rotorF e 0 x < 26 := by
    intro x hx
    have hF := F0 x hx
    have hB := B2 _ hF.2
    refine ⟨?_, hF.2⟩
    rw [hB.1, hF.1]
    exact (S1 x hx).2.1
  have BF2 : ∀ x < 26, rotorF e 2 (rotorB e 0 x) = x ∧ rotorB e 0 x < 26 := by
    intro x hx
    have hB := B0 x hx
    have hF := F2 _ hB.2
    refine ⟨?_, hB.2⟩
    rw [hF.1, hB.1]
    exact (S3 x hx).2.2.2
  have BF1 : ∀ x < 26, rotorF e 1 (rotorB e 1 x) = x ∧ rotorB e 1 x < 26 := by
    intro x hx
    have hB := B1 x hx
    have hF := F1 _ hB.2
    refine ⟨?_, hB.2⟩
    rw [hF.1, hB.1]
    exact (S2 x hx).2.2.2
  have BF0 : ∀ x < 26, rotorF e 0 (rotorB e 2 x) = x ∧ rotorB e 2 x < 26 := by
    intro x hx
    have hB := B2 x hx
    have hF := F0 _ hB.2
    refine ⟨?_, hB.2⟩
    rw [hF.1, hB.1]
    exact (S1 x hx).2.2.2
  intro c hc
  have hsub : ∀ y, substitution e y = plugAp e (rotorB e 2 (rotorB e 1 (rotorB e 0
      (get2 e.data 4 (rotorF e 2 (rotorF e 1 (rotorF e 0 (plugAp e y)))) % 26)))) :=
    fun y => rfl
  -- forward values and bounds
  have hc0 := plugF c hc
  have hf1 := F0 (plugAp e c) hc0.1
  have hf2 := F1 _ hf1.2
  have hf3 := F2 _ hf2.2
  have hr := R _ hf3.2
  have hb1 := B0 _ hr.2.1
  have hb2 := B1 _ hb1.2
  have hb3 := B2 _ hb2.2
  have hout := plugF _ hb3.2
  constructor
  · rw [hsub c]
    exact hout.1
  · rw [hsub c, hsub (plugAp e (rotorB e 2 (rotorB e 1 (rotorB e 0
      (get2 e.data 4 (rotorF e 2 (rotorF e 1 (rotorF e 0 (plugAp e c)))) % 26)))))]
    rw [hout.2]
    rw [(BF0 _ hb2.2).1]
    rw [(BF1 _ hb1.2).1]
    rw [(BF2 _ hr.2.1).1]
    rw [hr.2.2]
    rw [(FB2 _ hf2.2).1]
    rw [(FB1 _ hf1.2).1]
    rw [(FB0 _ hc0.1).1]
    exact hc0.2

/-! ### Stepping preserves the compiled tables and the position invariant -/

theorem u8add_eq {a b : Nat} (h : a + b < 256) : u8add a b = a + b := by
  unfold u8add
  omega

theorem advance_fields (e : Enigma) :
    (advance_rotors e).data = e.data ∧ (advance_rotors e).n_plugs = e.n_plugs ∧
    (advance_rotors e).step = e.step := ⟨rfl, rfl, rfl⟩

theorem advance_GoodTables {e : Enigma} (h : GoodTables e) : GoodTables (advance_rotors e) := by
  unfold GoodTables at h ⊢
  rw [(advance_fields e).1, (advance_fields e).2.1]
  exact h

theorem advance_PosOK {e : Enigma} (h : PosOK e) : PosOK (advance_rotors e) := by
  obtain ⟨hlen, hp0, hp1, hp2⟩ := h
  obtain ⟨a, b, c, hpos⟩ := List.length_eq_three.1 hlen
  rw [hpos] at hp0 hp1 hp2
  simp only [rget, List.getD_cons_zero, List.getD_cons_succ] at hp0 hp1 hp2
  unfold advance_rotors PosOK
  rw [hpos]
  simp only [rget, u8add, List.getD_cons_zero, List.getD_cons_succ,
    List.set_cons_zero, List.set_cons_succ]
  split_ifs <;>
    simp only [List.getD_cons_zero, List.getD_cons_succ, List.set_cons_zero,
      List.set_cons_succ, List.length_cons, List.length_nil] <;>
    refine ⟨trivial, ?_, ?_, ?_⟩ <;> omega

theorem encipher_upper {e : Enigma} {c : Nat} (hc1 : 65 ≤ c) (hc2 : c ≤ 90) :
    encipher e c =
      (u8add (substitution (advance_rotors e) (c - 65)) 65, advance_rotors e) := by
  unfold encipher
  rw [if_pos (is_alpha_upper hc1 hc2), toupper_upper hc2, u8sub65 hc1 (by omega)]

theorem runEnigma_cons (e : Enigma) (c : Nat) (cs : List Nat) :
    runEnigma e (c :: cs) = ((encipher e c).1 :: (runEnigma (encipher e c).2 cs).1,
      (runEnigma (encipher e c).2 cs).2) := rfl

/-- Double encipherment from the same machine state restores an uppercase
stream (the machines advance in lockstep and the fixed-position substitution
is an involution). -/
theorem roundtrip_aux :
    ∀ (s : List Nat) (e : Enigma), GoodTables e → PosOK e →
      (∀ x ∈ s, 65 ≤ x ∧ x ≤ 90) →
      (runEnigma e ((runEnigma e s).1)).1 = s
  | [], _, _, _, _ => rfl
  | c :: cs, e, hT, hP, hs => by
    have hc := hs c (List.mem_cons_self _ _)
    have hT' := advance_GoodTables hT
    have hP' := advance_PosOK hP
    have h1 := substitution_invol hT' hP' (c - 65) (by omega)
    have henc := encipher_upper (e := e) hc.1 hc.2
    have hyv : u8add (substitution (advance_rotors e) (c - 65)) 65 =
        substitution (advance_rotors e) (c - 65) + 65 := u8add_eq (by omega)
    rw [runEnigma_cons e c cs]
    simp only [henc, hyv]
    rw [runEnigma_cons]
    have hy1 : 65 ≤ substitution (advance_rotors e) (c - 65) + 65 := by omega
    have hy2 : substitution (advance_rotors e) (c - 65) + 65 ≤ 90 := by omega
    have henc2 := encipher_upper (e := e) hy1 hy2
    simp only [henc2, Nat.add_sub_cancel]
    rw [h1.2]
    have hback : u8add (c - 65) 65 = c := by
      rw [u8add_eq (by omega)]
      omega
    rw [hback]
    have htail := roundtrip_aux cs (advance_rotors e) hT' hP'
      (fun x hx => hs x (List.mem_cons_of_mem _ hx))
    rw [htail]

/-! ### A machine built from a valid ring-offset-0 configuration is good -/

instance (k : Config) : Decidable (ValidConfig k) := by
  unfold ValidConfig
  infer_instance

theorem rget_cons_zero {a : Nat} {l : List Nat} : rget (a :: l) 0 = a := rfl

theorem rget_cons_succ {a : Nat} {l : List Nat} {n : Nat} :
    rget (a :: l) (n + 1) = rget l n := rfl

theorem build_Good (k : Config) (hv : ValidConfig k) (hr : k.ring = [65, 65, 65]) :
    GoodTables (build k) ∧ PosOK (build k) := by
  obtain ⟨hol, hov, hrl, hrv, hpl, hpv, hnd, hposl, hposv⟩ := hv
  obtain ⟨a, b, c, ho⟩ := List.length_eq_three.1 hol
  have hk1 : a < 5 := hov a (by rw [ho]; simp)
  have hk2 : b < 5 := hov b (by rw [ho]; simp)
  have hk3 : c < 5 := hov c (by rw [ho]; simp)
  have hg0 : rget k.order 0 = a := by rw [ho]; rfl
  have hg1 : rget k.order 1 = b := by rw [ho]; rfl
  have hg2 : rget k.order 2 = c := by rw [ho]; rfl
  obtain ⟨hd8, b1, b2, b3, b4, b5, b6, b7, b0⟩ := build_rows k hr
  rw [hg0] at b1 b7
  rw [hg1] at b2 b6
  rw [hg2] at b3 b5
  constructor
  · refine ⟨⟨a, hk1, b, hk2, c, hk3, b1, b2, b3, b5, b6, b7⟩, b4, ?_⟩
    intro hnp
    have hnp' : k.pairs.length ≠ 0 := by
      rw [build_nplugs_eq] at hnp
      exact hnp
    have hrow0 := b0 hnp'
    have hpl2 : plugRowLoop (flatPairs k.pairs) k.pairs.length 0 idRow =
        pairsFold k.pairs idRow := by
      have h := plugRowLoop_pairs k.pairs [] idRow hpv
      simpa using h
    have hid := idRow_spec
    have hidinv : ∀ x < 26, rget idRow x < 26 ∧ rget idRow (rget idRow x) = x := by
      intro x hx
      have h1 := hid.2 x hx
      rw [h1]
      exact ⟨hx, h1⟩
    have hfresh : ∀ q ∈ k.pairs, rget idRow (q.1 - 65) = q.1 - 65 ∧
        rget idRow (q.2 - 65) = q.2 - 65 := by
      intro q hq
      have hqr := hpv q hq
      exact ⟨hid.2 _ (by omega), hid.2 _ (by omega)⟩
    have hres := pairsFold_inv k.pairs idRow hid.1 hidinv hpv hnd hfresh
    rw [hrow0, hpl2]
    exact hres.2
  · obtain ⟨p0, p1, p2, hp⟩ := List.length_eq_three.1 hposl
    have h0 : p0 < 26 := hposv p0 (by rw [hp]; simp)
    have h1 : p1 < 26 := hposv p1 (by rw [hp]; simp)
    have h2 : p2 < 26 := hposv p2 (by rw [hp]; simp)
    refine ⟨?_, ?_, ?_, ?_⟩ <;> rw [build_pos_eq, hp]
    · rfl
    · exact h0
    · exact h1
    · exact h2

/-! ### Checked-access variant of `encipher` (for the bounds-safety claim) -/

/-- Read `data[i][j]` with explicit bounds checks (`none` models the panic a
Rust out-of-bounds index would raise). -/
def get2? (d : List (List Nat)) (i j : Nat) : Option Nat :=
  (d.get? i).bind fun r => r.get? j

/-- `encipher` with every `data` access bounds-checked. -/
def encipherChecked (e : Enigma) (c : Nat) : Option (Nat × Enigma) :=
  if is_alpha c then
    let e' := advance_rotors e
    let c0 := u8sub (toupper c) 65
    (if e'.n_plugs ≠ 0 then get2? e'.data 0 c0 else some c0).bind fun c1 =>
    (get2? e'.data 1 (u8add c1 (rget e'.pos 0) % 26)).bind fun v1 =>
    let c2 := u8add c1 v1 % 26
    (get2? e'.data 2 (u8add c2 (rget e'.pos 1) % 26)).bind fun v2 =>
    let c3 := u8add c2 v2 % 26
    (get2? e'.data 3 (u8add c3 (rget e'.pos 2) % 26)).bind fun v3 =>
    let c4 := u8add c3 v3 % 26
    (get2? e'.data 4 c4).bind fun v4 =>
    let c5 := v4 % 26
    (get2? e'.data 5 (u8add c5 (rget e'.pos 2) % 26)).bind fun v5 =>
    let c6 := u8add c5 v5 % 26
    (get2? e'.data 6 (u8add c6 (rget e'.pos 1) % 26)).bind fun v6 =>
    let c7 := u8add c6 v6 % 26
    (get2? e'.data 7 (u8add c7 (rget e'.pos 0) % 26)).bind fun v7 =>
    let c8 := u8add c7 v7 % 26
    (if e'.n_plugs ≠ 0 then get2? e'.data 0 c8 else some c8).bind fun c9 =>
    some (u8add c9 65, e')
  else some (c, e)

/-- Every row entry of the working array is a letter code. -/
def RowsOK (d : List (List Nat)) : Prop :=
  Dim8 d ∧ ∀ i < 8, ∀ x ∈ row d i, x < 26

theorem get2?_eq {d : List (List Nat)} (hd : Dim8 d) {i j : Nat} (hi : i < 8)
    (hj : j < 26) : get2? d i j = some (get2 d i j) := by
  have hil : i < d.length := by rw [hd.1]; exact hi
  have hrl : (row d i).length = 26 := row_length hd hi
  have hjl : j < (row d i).length := by omega
  have h1 : d[i]? = some (row d i) := by
    rw [List.getElem?_eq_getElem hil]
    simp [row, List.getD_eq_getElem?_getD, List.getElem?_eq_getElem hil]
  have h2 : (row d i)[j]? = some (rget (row d i) j) := by
    rw [List.getElem?_eq_getElem hjl]
    simp [rget, List.getD_eq_getElem?_getD, List.getElem?_eq_getElem hjl]
  simp [get2?, List.get?_eq_getElem?, h1, h2, get2]

theorem rget_row_lt {d : List (List Nat)} (h : RowsOK d) {i j : Nat} (hi : i < 8)
    (hj : j < 26) : get2 d i j < 26 := by
  have hrl : (row d i).length = 26 := row_length h.1 hi
  have hjl : j < (row d i).length := by omega
  have hv : rget (row d i) j = (row d i)[j] := by
    simp [rget, List.getD_eq_getElem?_getD, List.getElem?_eq_getElem hjl]
  rw [get2, hv]
  exact h.2 i hi _ (List.getElem_mem hjl)

theorem substitution_lt {e : Enigma} (hR : RowsOK e.data) (x : Nat) :
    substitution e x < 26 := by
  have m26 : ∀ y : Nat, y % 26 < 26 := fun y => Nat.mod_lt _ (by norm_num)
  unfold substitution
  simp only [rotorB]
  unfold plugAp
  split_ifs
  · exact rget_row_lt hR (by norm_num) (m26 _)
  · exact m26 _

theorem encipherChecked_eq {e : Enigma} {c : Nat} (hR : RowsOK e.data)
    (hc : is_alpha c = true) :
    encipherChecked e c = some (encipher e c) ∧
    65 ≤ (encipher e c).1 ∧ (encipher e c).1 ≤ 90 := by
  have hda : (advance_rotors e).data = e.data := rfl
  have hR' : RowsOK (advance_rotors e).data := by rw [hda]; exact hR
  have hd := hR'.1
  have m26 : ∀ y : Nat, y % 26 < 26 := fun y => Nat.mod_lt _ (by norm_num)
  have htc : 65 ≤ toupper c ∧ toupper c ≤ 90 := by
    simp [is_alpha] at hc
    unfold toupper
    split_ifs <;> omega
  have hc0 : u8sub (toupper c) 65 < 26 := by
    rw [u8sub65 htc.1 (by omega)]
    omega
  have hplug : ∀ x, x < 26 →
      (if (advance_rotors e).n_plugs ≠ 0 then get2? (advance_rotors e).data 0 x
        else some x) = some (plugAp (advance_rotors e) x) := by
    intro x hx
    unfold plugAp
    split_ifs with h
    · exact get2?_eq hd (by norm_num) hx
    · rfl
  have hc1 : plugAp (advance_rotors e) (u8sub (toupper c) 65) < 26 := by
    unfold plugAp
    split_ifs with h
    · exact rget_row_lt hR' (by norm_num) hc0
    · exact hc0
  have henc : encipher e c =
      (u8add (substitution (advance_rotors e) (u8sub (toupper c) 65)) 65,
        advance_rotors e) := by
    unfold encipher
    rw [hc]
    simp only [if_true]
  have hslt := substitution_lt hR' (u8sub (toupper c) 65)
  refine ⟨?_, ?_, ?_⟩
  · unfold encipherChecked
    rw [hc]
    simp only [if_true]
    rw [hplug _ hc0]
    simp only [Option.some_bind]
    rw [get2?_eq hd (by norm_num) (m26 _)]
    simp only [Option.some_bind]
    rw [get2?_eq hd (by norm_num) (m26 _)]
    simp only [Option.some_bind]
    rw [get2?_eq hd (by norm_num) (m26 _)]
    simp only [Option.some_bind]
    rw [get2?_eq hd (by norm_num) (m26 _)]
    simp only [Option.some_bind]
    rw [get2?_eq hd (by norm_num) (m26 _)]
    simp only [Option.some_bind]
    rw [get2?_eq hd (by norm_num) (m26 _)]
    simp only [Option.some_bind]
    rw [get2?_eq hd (by norm_num) (m26 _)]
    simp only [Option.some_bind]
    rw [hplug _ (m26 _)]
    simp only [Option.some_bind]
    rw [henc]
    rfl
  · rw [henc]
    rw [u8add_eq (by omega)]
    omega
  · rw [henc]
    rw [u8add_eq (by omega)]
    omega

/-! ### Outcomes of the keyfile token loops -/

theorem fillLoop_short (parse : String → Option Nat) (len off : Nat) :
    ∀ (ts : List String) (arr : List Nat) (count : Nat), count + off + ts.length ≤ len →
      fillLoop parse len off ts arr count = LoopRes.usage ∨
      ∃ arr', fillLoop parse len off ts arr count = LoopRes.ok (arr', count + ts.length)
  | [], arr, count, _ => Or.inr ⟨arr, by simp [fillLoop]⟩
  | t :: ts, arr, count, h => by
    have hlt : count + off < len := by
      simp only [List.length_cons] at h
      omega
    cases hp : parse t with
    | none => simp [fillLoop, hp]
    | some v =>
      simp only [fillLoop, hp]
      rw [if_pos hlt]
      rcases fillLoop_short parse len off ts (arr.set (count + off) v) (count + 1)
          (by simp only [List.length_cons] at h; omega) with h1 | ⟨arr', h2⟩
      · left
        exact h1
      · right
        refine ⟨arr', ?_⟩
        rw [h2, show count + 1 + ts.length = count + (t :: ts).length from by simp; omega]

theorem posLoop_ok : ∀ (ts : List String) (arr : List Nat) (count : Nat),
    posLoop ts arr count = LoopRes.usage ∨
    ∃ a c2, posLoop ts arr count = LoopRes.ok (a, c2)
  | [], arr, count => Or.inr ⟨arr, count, rfl⟩
  | t :: ts, arr, count => by
    by_cases h3 : 3 ≤ count
    · simp only [posLoop]
      rw [if_pos h3]
      exact Or.inr ⟨arr, count, rfl⟩
    · cases hp : parseU8 t with
      | none =>
        simp only [posLoop]
        rw [if_neg h3]
        simp [hp]
      | some v =>
        simp only [posLoop]
        rw [if_neg h3]
        simp only [hp]
        exact posLoop_ok ts (arr.set count v) (count + 1)

theorem kf_order_short (e : Enigma) (kf : List (List String))
    (h : (toks kf 1).length < 3) : read_keyfile e kf = KfRes.usage := by
  unfold read_keyfile
  rcases fillLoop_short parseNat 3 0 (toks kf 1) e.order 0 (by omega) with h1 | ⟨arr', h1⟩
  · rw [h1]
  · rw [h1]
    dsimp only
    rw [if_pos (by omega)]

theorem kf_no_panic (e : Enigma) (kf : List (List String))
    (h1 : (toks kf 1).length ≤ 3) (h2 : (toks kf 2).length ≤ 7)
    (h4 : (toks kf 4).length ≤ 13) : read_keyfile e kf ≠ KfRes.panicked := by
  unfold read_keyfile
  rcases fillLoop_short parseNat 3 0 (toks kf 1) e.order 0 (by omega) with ha | ⟨a1, ha⟩ <;>
    rw [ha]
  · simp
  · dsimp only
    by_cases hc1 : 0 + (toks kf 1).length < 3
    · rw [if_pos hc1]
      simp
    · rw [if_neg hc1]
      rcases fillLoop_short parseU8 8 1 (toks kf 2) e.ring 0 (by omega) with hb | ⟨a2, hb⟩ <;>
        rw [hb]
      · simp
      · dsimp only
        by_cases hc2 : 0 + (toks kf 2).length < 3
        · rw [if_pos hc2]
          simp
        · rw [if_neg hc2]
          cases hh : (toks kf 3).head? with
          | none => simp
          | some t =>
            dsimp only
            cases hnp : parseNat t with
            | none => simp
            | some np =>
              dsimp only
              by_cases h0 : 0 < np
              · rw [if_pos h0, if_pos h0]
                rcases fillLoop_short parseU8 13 0 (toks kf 4) e.plugs 0 (by omega) with
                  hq | ⟨a3, hq⟩ <;> rw [hq]
                · simp
                · dsimp only
                  rcases posLoop_ok (toks kf 5) [0, 0, 0] 0 with hp | ⟨aa, cc, hp⟩ <;> rw [hp] <;>
                    exact fun hcon => KfRes.noConfusion hcon
              · rw [if_neg h0, if_neg h0]
                dsimp only
                rcases posLoop_ok (toks kf 4) [0, 0, 0] 0 with hp | ⟨aa, cc, hp⟩ <;> rw [hp] <;>
                  exact fun hcon => KfRes.noConfusion hcon

/-! ### Stepping invariants of `advance_rotors` -/

theorem advance_dstep (e : Enigma) :
    (advance_rotors e).dstep = true ↔ rget (advance_rotors e).pos 1 = rget e.step 1 := by
  unfold advance_rotors
  dsimp only
  split_ifs <;> simp_all

theorem advance_pos2 (e : Enigma) (hlen : e.pos.length = 3) :
    rget (advance_rotors e).pos 2 =
      (if e.dstep then u8add (rget e.pos 2) 1 % 26 else rget e.pos 2) := by
  obtain ⟨a, b, c, hpos⟩ := List.length_eq_three.1 hlen
  unfold advance_rotors
  rw [hpos]
  dsimp only
  simp only [rget, List.getD_cons_zero, List.getD_cons_succ, List.set_cons_zero,
    List.set_cons_succ]
  split_ifs <;> simp [rget]

/-! ### `read_keyfile` never touches the compiled tables -/

theorem read_keyfile_preserves (e : Enigma) (kf : List (List String)) (e' : Enigma)
    (h : read_keyfile e kf = KfRes.ok e') :
    e'.data = e.data ∧ e'.step = e.step := by
  unfold read_keyfile at h
  repeat' split at h
  any_goals exact KfRes.noConfusion h
  all_goals
    injection h with h
    rw [← h]
    exact ⟨rfl, rfl⟩

/-! ### Decidability of the bound predicates -/

instance (d : List (List Nat)) : Decidable (Dim8 d) := by
  unfold Dim8
  infer_instance

instance (d : List (List Nat)) : Decidable (RowsOK d) := by
  unfold RowsOK
  infer_instance

instance (e : Enigma) : Decidable (PosOK e) := by
  unfold PosOK
  infer_instance

/-! ### Concrete configurations and keyfiles used as inputs -/

/-- The default configuration of `main`: rotor order I II III, all rings at
'A', no plugs, all positions at 0. -/
def cfgDefault : Config := ⟨[0, 1, 2], [65, 65, 65], [], [0, 0, 0]⟩

/-- The default configuration with the first ring setting moved to 'B'. -/
def cfgRingB : Config := ⟨[0, 1, 2], [66, 65, 65], [], [0, 0, 0]⟩

/-- A well-formed keyfile: rotor order 2 3 1, rings 1 1 1, no plugs. -/
def kf2 : List (List String) := [["2", "3", "1"], ["1", "1", "1"], ["0"]]

/-- Whether a `read_keyfile` outcome is success. -/
def isOk : KfRes → Bool
  | KfRes.ok _ => true
  | _ => false

/-- The working data of the default machine just before `init`'s final
displacement-conversion loop (reflector fill, rotor fills, ring settings,
plug table). -/
def preD : List (List Nat) :=
  plugPhase mainEnigma.n_plugs mainEnigma.plugs
    (ringPhase
      (((mainEnigma.ring.set 7 (rget mainEnigma.ring 1)).set 6
          (rget mainEnigma.ring 2)).set 5 (rget mainEnigma.ring 3))
      (rotorPhase mainEnigma.order mainEnigma.step (reflPhase mainEnigma.data)).2)

/-- Displacement form of an absolute table, as the specification states it:
`disp[j] = (26 + table[j] - j) % 26`. -/
def dispForm (t : List Nat) : List Nat :=
  (List.range 26).map (fun j => (26 + rget t j - j) % 26)

/-! ### The claims -/

/-- C1: the round-trip property as stated fails in general (the amended form
holds for ring settings at 'A' and uppercase streams, see
`C1_roundtrip_ring_a`).  With the first ring at 'B' the stream "A" does not
come back, and a lowercase stream comes back uppercased. -/
theorem C1_roundtrip_cex :
    (ValidConfig cfgRingB ∧
      (runEnigma (build cfgRingB) ((runEnigma (build cfgRingB) [65]).1)).1 ≠ [65]) ∧
    (ValidConfig cfgDefault ∧ is_alpha 97 = true ∧
      (runEnigma (build cfgDefault) ((runEnigma (build cfgDefault) [97]).1)).1 ≠ [97]) := by
  decide

/-- C1: amended round-trip.  For every well-formed configuration whose ring
settings are all 'A' and every uppercase stream, enciphering twice from the
same built machine reproduces the stream. -/
theorem C1_roundtrip_ring_a (k : Config) (s : List Nat) (hv : ValidConfig k)
    (hr : k.ring = [65, 65, 65]) (hs : ∀ x ∈ s, 65 ≤ x ∧ x ≤ 90) :
    (runEnigma (build k) ((runEnigma (build k) s).1)).1 = s :=
  roundtrip_aux s (build k) (build_Good k hv hr).1 (build_Good k hv hr).2 hs

theorem C1_roundtrip_witness :
    ValidConfig cfgDefault ∧ cfgDefault.ring = [65, 65, 65] ∧
    (∀ x ∈ ([72, 69, 76, 76, 79, 87, 79, 82, 76, 68] : List Nat), 65 ≤ x ∧ x ≤ 90) ∧
    (runEnigma (build cfgDefault)
        ((runEnigma (build cfgDefault) [72, 69, 76, 76, 79, 87, 79, 82, 76, 68]).1)).1 =
      [72, 69, 76, 76, 79, 87, 79, 82, 76, 68] :=
  ⟨by decide, by decide, by decide,
    C1_roundtrip_ring_a cfgDefault _ (by decide) (by decide) (by decide)⟩

/-- C2: `main` runs `init` before `read_keyfile` and never recompiles, so the
compiled tables `data` and the notch thresholds `step` that `encipher` uses
are those of the default configuration whatever the keyfile says: every
successful `read_keyfile` leaves them unchanged, and for the keyfile
requesting rotor order 2 3 1 the machine still holds the default thresholds
[16, 4, 21] rather than the keyfile's [4, 21, 16]. -/
theorem C2_keyfile_ignored :
    (∀ kf e', read_keyfile (init mainEnigma) kf = KfRes.ok e' →
      e'.data = (init mainEnigma).data ∧ e'.step = (init mainEnigma).step) ∧
    isOk (read_keyfile (init mainEnigma) kf2) = true ∧
    (init mainEnigma).step = [16, 4, 21] ∧
    [rget step_data 1, rget step_data 2, rget step_data 0] = [4, 21, 16] ∧
    ([16, 4, 21] : List Nat) ≠ [4, 21, 16] :=
  ⟨fun kf e' h => read_keyfile_preserves (init mainEnigma) kf e' h,
    by decide, by decide, by decide, by decide⟩

/-- C3: the fixed-position substitution is not an involution for every
compiled machine: with the first ring setting at 'B' the double application
at letter 0 ('A') returns 12 ('M'). -/
theorem C3_involution_cex :
    ValidConfig cfgRingB ∧
    substitution (build cfgRingB) (substitution (build cfgRingB) 0) = 12 ∧
    (12 : Nat) ≠ 0 := by
  decide

/-- C3: amended involution.  For every well-formed configuration whose ring
settings are all 'A', the fixed-position substitution of the built machine is
an involution on 0–25, hence a bijection of that range onto itself. -/
theorem C3_substitution_involution (k : Config) (hv : ValidConfig k)
    (hr : k.ring = [65, 65, 65]) :
    (∀ c < 26, substitution (build k) c < 26 ∧
      substitution (build k) (substitution (build k) c) = c) ∧
    Set.BijOn (substitution (build k)) {n : Nat | n < 26} {n : Nat | n < 26} := by
  have hi := substitution_invol (build_Good k hv hr).1 (build_Good k hv hr).2
  refine ⟨hi, ?_⟩
  have hmaps : Set.MapsTo (substitution (build k)) {n : Nat | n < 26} {n : Nat | n < 26} :=
    fun x hx => (hi x hx).1
  exact Set.InvOn.bijOn ⟨fun x hx => (hi x hx).2, fun x hx => (hi x hx).2⟩ hmaps hmaps

theorem C3_substitution_involution_witness :
    ValidConfig cfgDefault ∧ cfgDefault.ring = [65, 65, 65] ∧
    ((∀ c < 26, substitution (build cfgDefault) c < 26 ∧
        substitution (build cfgDefault) (substitution (build cfgDefault) c) = c) ∧
      Set.BijOn (substitution (build cfgDefault)) {n : Nat | n < 26} {n : Nat | n < 26}) :=
  ⟨by decide, by decide, C3_substitution_involution cfgDefault (by decide) (by decide)⟩

/-- C4: a byte that is not an ASCII letter passes through `encipher`
unchanged, with the whole machine state (positions, double-step flag and
tables) untouched. -/
theorem C4_nonalpha_passthrough (e : Enigma) (c : Nat) (h : is_alpha c = false) :
    encipher e c = (c, e) := by
  simp [encipher, h]

theorem C4_nonalpha_passthrough_witness :
    is_alpha 49 = false ∧ encipher mainEnigma 49 = (49, mainEnigma) :=
  ⟨by decide, C4_nonalpha_passthrough mainEnigma 49 (by decide)⟩

/-- C5: after 17 steps from positions {0,0,0} with the right notch threshold
16, the middle rotor has not advanced by 1: it stands at 19, because
`advance_rotors` moves `pos[1]` on every invocation. -/
theorem C5_seventeen_steps_cex :
    rget (init mainEnigma).step 0 = 16 ∧ rget (init mainEnigma).pos 1 = 0 ∧
    rget (advance_rotors^[17] (init mainEnigma)).pos 1 = 19 ∧ (19 : Nat) ≠ 0 + 1 := by
  decide

/-- C5: amended stepping fact.  Starting the default compiled machine
(positions {0,0,0}, right notch threshold `step[0] = 16`) and invoking the
stepping transition 17 times leaves the rotors at positions [17, 19, 1]. -/
theorem C5_seventeen_steps :
    rget (init mainEnigma).step 0 = 16 ∧ (init mainEnigma).pos = [0, 0, 0] ∧
    (advance_rotors^[17] (init mainEnigma)).pos = [17, 19, 1] := by
  decide

/-- C6: a keyfile whose rotor-order line has fewer than 3 tokens is rejected
with the usage error.  (The ring-settings half of the claim fails, see
`C6_ring_line_cex`: the line buffer is never cleared, so the ring-line token
count includes the order line's tokens and the check cannot fire.) -/
theorem C6_order_line_short (e : Enigma) (kf : List (List String))
    (h : (toks kf 1).length < 3) : read_keyfile e kf = KfRes.usage :=
  kf_order_short e kf h

theorem C6_order_line_short_witness :
    (toks [["1", "2"]] 1).length < 3 ∧
    read_keyfile mainEnigma [["1", "2"]] = KfRes.usage :=
  ⟨by decide, C6_order_line_short mainEnigma [["1", "2"]] (by decide)⟩

/-- C6: counterexample for the ring-settings half: a keyfile whose second
(ring) line is empty — fewer than 3 tokens — is accepted, because the
uncleared buffer still holds the 3 order tokens. -/
theorem C6_ring_line_cex :
    (([["1", "2", "3"]] : List (List String)).getD 1 []).length < 3 ∧
    isOk (read_keyfile mainEnigma [["1", "2", "3"]]) = true := by
  decide

/-- C7: a rotor-order line with 4 tokens drives the write `order[count]` out
of bounds: `read_keyfile` panics instead of exiting with the usage error. -/
theorem C7_panic_cex :
    read_keyfile mainEnigma [["1", "2", "3", "4"]] = KfRes.panicked := by
  decide

/-- C7: amended safety.  When the buffered token counts stay within the
arrays (at most 3 order tokens, 7 ring tokens, 13 plug tokens),
`read_keyfile` never panics: it succeeds or exits with the usage error. -/
theorem C7_no_panic_bounded (e : Enigma) (kf : List (List String))
    (h1 : (toks kf 1).length ≤ 3) (h2 : (toks kf 2).length ≤ 7)
    (h4 : (toks kf 4).length ≤ 13) : read_keyfile e kf ≠ KfRes.panicked :=
  kf_no_panic e kf h1 h2 h4

theorem C7_no_panic_witness :
    (toks kf2 1).length ≤ 3 ∧ (toks kf2 2).length ≤ 7 ∧ (toks kf2 4).length ≤ 13 ∧
    read_keyfile mainEnigma kf2 ≠ KfRes.panicked :=
  ⟨by decide, by decide, by decide,
    C7_no_panic_bounded mainEnigma kf2 (by decide) (by decide) (by decide)⟩

/-- C8: the reflector row is not converted: entry 1 of `data[4]` is still the
absolute value 17 after `init`, where its displacement form would be
(26 + 17 - 1) % 26 = 16. -/
theorem C8_reflector_cex :
    get2 preD 4 1 = 17 ∧ (26 + 17 - 1) % 26 = 16 ∧
    get2 (init mainEnigma).data 4 1 = 17 ∧ (17 : Nat) ≠ 16 := by
  decide

/-- C8: amended conversion.  `init` converts the six moving-rotor rows to
displacement form `disp[j] = (26 + table[j] - j) % 26`, but the conversion
loop skips `i = 4`: the reflector row keeps its absolute table, which differs
from its displacement form. -/
theorem C8_partial_conversion :
    (row (init mainEnigma).data 1 = dispForm (row preD 1) ∧
      row (init mainEnigma).data 2 = dispForm (row preD 2) ∧
      row (init mainEnigma).data 3 = dispForm (row preD 3) ∧
      row (init mainEnigma).data 5 = dispForm (row preD 5) ∧
      row (init mainEnigma).data 6 = dispForm (row preD 6) ∧
      row (init mainEnigma).data 7 = dispForm (row preD 7)) ∧
    row (init mainEnigma).data 4 = row preD 4 ∧
    row (init mainEnigma).data 4 ≠ dispForm (row preD 4) := by
  decide

/-- C9: after `init` the default machine's tables hold 8 rows of 26 values
below 26 and its positions are in range; `advance_rotors` keeps the positions
in range; and with in-range tables every table access `encipher` makes for an
alphabetic byte is in bounds (the bounds-checked evaluation succeeds and
agrees) and the output byte is an uppercase letter. -/
theorem C9_bounds_safety :
    (RowsOK (init mainEnigma).data ∧ PosOK (init mainEnigma)) ∧
    (∀ e : Enigma, PosOK e → PosOK (advance_rotors e)) ∧
    (∀ (e : Enigma) (c : Nat), RowsOK e.data → is_alpha c = true →
      encipherChecked e c = some (encipher e c) ∧
      65 ≤ (encipher e c).1 ∧ (encipher e c).1 ≤ 90) :=
  ⟨⟨by decide, by decide⟩, fun _ h => advance_PosOK h,
    fun _ _ hR hc => encipherChecked_eq hR hc⟩

/-- C10: after every invocation of `advance_rotors` the double-step flag is
true exactly when the middle rotor stands at its notch threshold, and the
left rotor advances on an invocation exactly when the flag was set by the
previous one. -/
theorem C10_dstep_invariant (e : Enigma) (hlen : e.pos.length = 3) :
    ((advance_rotors e).dstep = true ↔
      rget (advance_rotors e).pos 1 = rget e.step 1) ∧
    rget (advance_rotors e).pos 2 =
      (if e.dstep then u8add (rget e.pos 2) 1 % 26 else rget e.pos 2) :=
  ⟨advance_dstep e, advance_pos2 e hlen⟩

theorem C10_dstep_invariant_witness :
    mainEnigma.pos.length = 3 ∧
    (((advance_rotors mainEnigma).dstep = true ↔
        rget (advance_rotors mainEnigma).pos 1 = rget mainEnigma.step 1) ∧
      rget (advance_rotors mainEnigma).pos 2 =
        (if mainEnigma.dstep then u8add (rget mainEnigma.pos 2) 1 % 26
         else rget mainEnigma.pos 2)) :=
  ⟨by decide, C10_dstep_invariant mainEnigma (by decide)⟩
